import Mathlib

/-!
Verification development for the threshold-ECDSA consensus component of
`rs/consensus/src/ecdsa.rs`.

The file shallowly embeds the data model and the operations described by the
module documentation of `ecdsa.rs` (artifact pool, PreSigner operations,
payload state machine) together with the facade code of `EcdsaImpl` and
`EcdsaGossipImpl`, and proves the key invariants: uniqueness of validated
dealings per (config, dealer) key, the 4-tuple graduation condition,
threshold aggregation, garbage collection, retry on operational crypto
errors, and the behaviour of the orchestration facade.

The sub-modules `pre_signer` and `payload_builder` are declared but their
bodies are not part of the excerpt; their operations are modelled from the
specification text (module doc sections "add DKG dealings" .. "aggregate
ECDSA signatures" and spec sections 4.1 / 4.2), as noted on each definition.
-/

/-! ## Data model -/

/-- Replica / node identity. -/
abbrev NodeId := Nat

/-- Identifier of a transcript config; carries the height at which the config
was created so that staleness ("older than the finalized tip") is decidable. -/
structure ConfigId where
  id : Nat
  height : Nat
deriving DecidableEq

/-- One dealer's contribution toward a config.  Key = (config id, dealer). -/
structure Dealing where
  config_id : ConfigId
  dealer : NodeId
deriving DecidableEq

/-- A peer's attestation that a dealing decrypts correctly for it.
Key = (config id, dealer, supporter). -/
structure DealingSupport where
  config_id : ConfigId
  dealer : NodeId
  supporter : NodeId
deriving DecidableEq

/-- One signer's partial signature for a signing request's config.
Key = (config id, signer). -/
structure SignatureShare where
  config_id : ConfigId
  signer : NodeId
deriving DecidableEq

/-- A full aggregated ECDSA signature for a config (content abstracted). -/
structure EcdsaSignature where
  config_id : ConfigId
deriving DecidableEq

/-- The completed output of a config (cryptographic content abstracted). -/
structure Transcript where
  config_id : ConfigId
deriving DecidableEq

/-- Descriptor of one interactive dealing round, as read from the finalized
tip: its id and the eligible dealers. -/
structure TranscriptConfig where
  config_id : ConfigId
  dealers : List NodeId
deriving DecidableEq

/-- A pending ask for a signature, tied to a config, a threshold and the
eligible signers; read from the finalized tip. -/
structure SignatureRequest where
  config_id : ConfigId
  threshold : Nat
  signers : List NodeId
deriving DecidableEq

/-- The latest finalized consensus block, as far as the ECDSA component
reads it: its height, its live configs and its signature requests. -/
structure FinalizedTip where
  height : Nat
  configs : List TranscriptConfig
  signature_requests : List SignatureRequest
deriving DecidableEq

/-- The artifact kinds stored in the ECDSA artifact pool. -/
inductive EcdsaMessage
  | dealing (d : Dealing)
  | support (s : DealingSupport)
  | share (s : SignatureShare)
  | signature (s : EcdsaSignature)
deriving DecidableEq

/-- A single proposed pool mutation. -/
inductive EcdsaChange
  | addToValidated (m : EcdsaMessage)
  | moveToValidated (m : EcdsaMessage)
  | removeValidated (m : EcdsaMessage)
  | removeUnvalidated (m : EcdsaMessage)
deriving DecidableEq

/-- The ordered list of pool mutations returned by one `on_state_change`. -/
abbrev EcdsaChangeSet := List EcdsaChange

/-- The ECDSA artifact pool, partitioned into validated and unvalidated
artifact sets.  `validated_transcripts` holds the completed transcripts the
payload builder reads (spec section 4.2). -/
structure EcdsaPool where
  validated_dealings : List Dealing
  unvalidated_dealings : List Dealing
  validated_supports : List DealingSupport
  validated_shares : List SignatureShare
  unvalidated_shares : List SignatureShare
  validated_signatures : List EcdsaSignature
  validated_transcripts : List Transcript
deriving DecidableEq

/-- Outcome of a crypto-service check: a distinguished "invalid artifact"
outcome versus an operational error (spec section 6). -/
inductive VerifyResult
  | valid
  | invalid
  | operationalError
deriving DecidableEq

/-- The opaque crypto service, injected as a strategy object (spec section 9):
only the verification verdicts matter to the state machine. -/
structure CryptoService where
  verify_dealing_public : Dealing → VerifyResult
  verify_dealing_private : Dealing → VerifyResult
  verify_share : SignatureShare → VerifyResult

/-! ## Keyed-list helpers

The pool is a key-partitioned store: adding an artifact whose key is already
present is ignored (spec section 7, DuplicateContribution). -/

/-- Does `l` hold an element with key `k`? -/
def hasKey {α κ : Type} [DecidableEq κ] (key : α → κ) (l : List α) (k : κ) : Bool :=
  l.any (fun e => decide (key e = k))

/-- Insert `a` unless an element with the same key is already present. -/
def insertByKey {α κ : Type} [DecidableEq κ] (key : α → κ) (l : List α) (a : α) : List α :=
  if hasKey key l (key a) then l else l ++ [a]

/-- Key of a dealing: (config id, dealer identity). -/
def dealingKey (d : Dealing) : ConfigId × NodeId := (d.config_id, d.dealer)

/-- Key of a dealing support: (config id, dealer, supporter). -/
def supportKey (s : DealingSupport) : ConfigId × NodeId × NodeId :=
  (s.config_id, s.dealer, s.supporter)

/-- Key of a signature share: (config id, signer). -/
def shareKey (s : SignatureShare) : ConfigId × NodeId := (s.config_id, s.signer)

/-- Key of a full signature: the config id. -/
def signatureKey (s : EcdsaSignature) : ConfigId := s.config_id

/-- Does the validated pool hold a dealing with key (cid, dealer)? -/
def hasValidatedDealing (pool : EcdsaPool) (cid : ConfigId) (dealer : NodeId) : Bool :=
  hasKey dealingKey pool.validated_dealings (cid, dealer)

/-- Does the validated pool hold a support with key (cid, dealer, supporter)? -/
def hasValidatedSupport (pool : EcdsaPool) (cid : ConfigId) (dealer supporter : NodeId) : Bool :=
  hasKey supportKey pool.validated_supports (cid, dealer, supporter)

/-- Does the validated pool hold a share with key (cid, signer)? -/
def hasValidatedShare (pool : EcdsaPool) (cid : ConfigId) (signer : NodeId) : Bool :=
  hasKey shareKey pool.validated_shares (cid, signer)

/-- Does the validated pool hold a full signature for `cid`? -/
def hasValidatedSignature (pool : EcdsaPool) (cid : ConfigId) : Bool :=
  hasKey signatureKey pool.validated_signatures cid

/-- The config ids live in the finalized tip. -/
def tipConfigIds (tip : FinalizedTip) : List ConfigId :=
  tip.configs.map (fun c => c.config_id)

/-! ## PreSigner operations

Modelled from the spec: the bodies of `pre_signer.rs` are not part of the
excerpt; each operation below follows the module doc of `ecdsa.rs`
(sections "add DKG dealings" through "aggregate ECDSA signatures") and spec
section 4.1, which were written from that code. -/

/-- Modelled from the spec: "add DKG dealings" — for every config in the tip
where this replica is a dealer and no dealing by this replica for the config
is validated, create a dealing and add it to the validated pool. -/
def send_dealings (me : NodeId) (tip : FinalizedTip) (pool : EcdsaPool) : EcdsaChangeSet :=
  (tip.configs.filter
      (fun c => decide (me ∈ c.dealers) && !hasValidatedDealing pool c.config_id me)).map
    (fun c => EcdsaChange.addToValidated (EcdsaMessage.dealing ⟨c.config_id, me⟩))

/-- Modelled from the spec: the verdict for one unvalidated dealing.  Only
dealings of live configs with no validated dealing for the same key are
checked; a valid one is moved to validated, an invalid one removed, and an
operational crypto error produces no change (spec section 7,
OperationalFailure). -/
def validate_dealing_change (crypto : CryptoService) (tip : FinalizedTip)
    (pool : EcdsaPool) (d : Dealing) : Option EcdsaChange :=
  if decide (d.config_id ∈ tipConfigIds tip) && !hasValidatedDealing pool d.config_id d.dealer then
    match crypto.verify_dealing_public d with
    | VerifyResult.valid => some (EcdsaChange.moveToValidated (EcdsaMessage.dealing d))
    | VerifyResult.invalid => some (EcdsaChange.removeUnvalidated (EcdsaMessage.dealing d))
    | VerifyResult.operationalError => none
  else none

/-- Modelled from the spec: "validate DKG dealings" over the whole
unvalidated partition. -/
def validate_dealings (crypto : CryptoService) (tip : FinalizedTip)
    (pool : EcdsaPool) : EcdsaChangeSet :=
  pool.unvalidated_dealings.filterMap (validate_dealing_change crypto tip pool)

/-- Modelled from the spec: the support decision for one validated dealing:
if this replica has not yet supported it, run the private verification and
add a support message when it succeeds. -/
def support_change (me : NodeId) (crypto : CryptoService) (pool : EcdsaPool)
    (d : Dealing) : Option EcdsaChange :=
  if !hasValidatedSupport pool d.config_id d.dealer me then
    match crypto.verify_dealing_private d with
    | VerifyResult.valid =>
        some (EcdsaChange.addToValidated (EcdsaMessage.support ⟨d.config_id, d.dealer, me⟩))
    | _ => none
  else none

/-- Modelled from the spec: "support DKG dealings" over the validated
partition. -/
def send_dealing_support (me : NodeId) (crypto : CryptoService)
    (pool : EcdsaPool) : EcdsaChangeSet :=
  pool.validated_dealings.filterMap (support_change me crypto pool)

/-- Is `cid` stale wrt the tip: no longer live and strictly older? -/
def is_stale (tip : FinalizedTip) (cid : ConfigId) : Bool :=
  !(decide (cid ∈ tipConfigIds tip)) && decide (cid.height < tip.height)

/-- Modelled from the spec: "remove stale dealings" — remove every dealing
(validated or unvalidated) and every support whose config id is not live in
the tip and is strictly older than the tip. -/
def purge_artifacts (tip : FinalizedTip) (pool : EcdsaPool) : EcdsaChangeSet :=
  (pool.validated_dealings.filter (fun d => is_stale tip d.config_id)).map
      (fun d => EcdsaChange.removeValidated (EcdsaMessage.dealing d))
    ++ (pool.unvalidated_dealings.filter (fun d => is_stale tip d.config_id)).map
      (fun d => EcdsaChange.removeUnvalidated (EcdsaMessage.dealing d))
    ++ (pool.validated_supports.filter (fun s => is_stale tip s.config_id)).map
      (fun s => EcdsaChange.removeValidated (EcdsaMessage.support s))

/-- Modelled from the spec: "add signature shares" — for every request in the
tip where this replica is a signer and has no validated share yet, create a
share and add it to the validated pool. -/
def send_signature_shares (me : NodeId) (tip : FinalizedTip)
    (pool : EcdsaPool) : EcdsaChangeSet :=
  (tip.signature_requests.filter
      (fun req => decide (me ∈ req.signers) && !hasValidatedShare pool req.config_id me)).map
    (fun req => EcdsaChange.addToValidated (EcdsaMessage.share ⟨req.config_id, me⟩))

/-- Modelled from the spec: the verdict for one unvalidated signature share,
mirroring `validate_dealing_change`. -/
def validate_share_change (crypto : CryptoService) (tip : FinalizedTip)
    (pool : EcdsaPool) (s : SignatureShare) : Option EcdsaChange :=
  if decide (s.config_id ∈ tipConfigIds tip) && !hasValidatedShare pool s.config_id s.signer then
    match crypto.verify_share s with
    | VerifyResult.valid => some (EcdsaChange.moveToValidated (EcdsaMessage.share s))
    | VerifyResult.invalid => some (EcdsaChange.removeUnvalidated (EcdsaMessage.share s))
    | VerifyResult.operationalError => none
  else none

/-- Modelled from the spec: "validate signature shares" over the whole
unvalidated partition. -/
def validate_signature_shares (crypto : CryptoService) (tip : FinalizedTip)
    (pool : EcdsaPool) : EcdsaChangeSet :=
  pool.unvalidated_shares.filterMap (validate_share_change crypto tip pool)

/-- The distinct signers having a validated share for `cid`. -/
def distinctSigners (shares : List SignatureShare) (cid : ConfigId) : List NodeId :=
  ((shares.filter (fun s => decide (s.config_id = cid))).map (fun s => s.signer)).dedup

/-- Modelled from the spec: "aggregate ECDSA signatures" — for every request
of the tip with no validated signature yet, if at least `threshold` shares
from distinct signers are validated, aggregate them into a full signature
(content abstracted: the signature is keyed by the request's config). -/
def aggregate_signatures (tip : FinalizedTip) (pool : EcdsaPool) : EcdsaChangeSet :=
  (tip.signature_requests.filter
      (fun req => !hasValidatedSignature pool req.config_id
        && decide (req.threshold ≤ (distinctSigners pool.validated_shares req.config_id).length))).map
    (fun req => EcdsaChange.addToValidated (EcdsaMessage.signature ⟨req.config_id⟩))

/-- Modelled from the spec: the PreSigner's `on_state_change`, running the
operations of the module doc in their documented order and concatenating
their change sets. -/
def pre_signer_on_state_change (me : NodeId) (crypto : CryptoService)
    (tip : FinalizedTip) (pool : EcdsaPool) : EcdsaChangeSet :=
  send_dealings me tip pool
    ++ validate_dealings crypto tip pool
    ++ send_dealing_support me crypto pool
    ++ purge_artifacts tip pool
    ++ send_signature_shares me tip pool
    ++ validate_signature_shares crypto tip pool
    ++ aggregate_signatures tip pool

/-! ## Applying a change set to the pool

The core never mutates the pool; the caller applies the returned change set.
Adds and moves insert by key (a duplicate contribution is ignored, spec
section 7); removals delete the artifact value. -/

/-- Apply one pool mutation. -/
def applyChange (pool : EcdsaPool) (c : EcdsaChange) : EcdsaPool :=
  match c with
  | EcdsaChange.addToValidated (EcdsaMessage.dealing d) =>
      { pool with validated_dealings := insertByKey dealingKey pool.validated_dealings d }
  | EcdsaChange.addToValidated (EcdsaMessage.support s) =>
      { pool with validated_supports := insertByKey supportKey pool.validated_supports s }
  | EcdsaChange.addToValidated (EcdsaMessage.share s) =>
      { pool with validated_shares := insertByKey shareKey pool.validated_shares s }
  | EcdsaChange.addToValidated (EcdsaMessage.signature s) =>
      { pool with validated_signatures := insertByKey signatureKey pool.validated_signatures s }
  | EcdsaChange.moveToValidated (EcdsaMessage.dealing d) =>
      { pool with
          validated_dealings := insertByKey dealingKey pool.validated_dealings d
          unvalidated_dealings := pool.unvalidated_dealings.filter (fun e => !decide (e = d)) }
  | EcdsaChange.moveToValidated (EcdsaMessage.share s) =>
      { pool with
          validated_shares := insertByKey shareKey pool.validated_shares s
          unvalidated_shares := pool.unvalidated_shares.filter (fun e => !decide (e = s)) }
  | EcdsaChange.moveToValidated (EcdsaMessage.support s) =>
      { pool with validated_supports := insertByKey supportKey pool.validated_supports s }
  | EcdsaChange.moveToValidated (EcdsaMessage.signature s) =>
      { pool with validated_signatures := insertByKey signatureKey pool.validated_signatures s }
  | EcdsaChange.removeValidated (EcdsaMessage.dealing d) =>
      { pool with validated_dealings := pool.validated_dealings.filter (fun e => !decide (e = d)) }
  | EcdsaChange.removeValidated (EcdsaMessage.support s) =>
      { pool with validated_supports := pool.validated_supports.filter (fun e => !decide (e = s)) }
  | EcdsaChange.removeValidated (EcdsaMessage.share s) =>
      { pool with validated_shares := pool.validated_shares.filter (fun e => !decide (e = s)) }
  | EcdsaChange.removeValidated (EcdsaMessage.signature s) =>
      { pool with validated_signatures := pool.validated_signatures.filter (fun e => !decide (e = s)) }
  | EcdsaChange.removeUnvalidated (EcdsaMessage.dealing d) =>
      { pool with unvalidated_dealings := pool.unvalidated_dealings.filter (fun e => !decide (e = d)) }
  | EcdsaChange.removeUnvalidated (EcdsaMessage.share s) =>
      { pool with unvalidated_shares := pool.unvalidated_shares.filter (fun e => !decide (e = s)) }
  | EcdsaChange.removeUnvalidated (EcdsaMessage.support _) => pool
  | EcdsaChange.removeUnvalidated (EcdsaMessage.signature _) => pool

/-- Apply a whole change set in order. -/
def applyChanges (pool : EcdsaPool) (cs : EcdsaChangeSet) : EcdsaPool :=
  cs.foldl applyChange pool

/-- One tick: run the PreSigner and apply its change set. -/
def runTick (me : NodeId) (crypto : CryptoService) (pool : EcdsaPool)
    (tip : FinalizedTip) : EcdsaPool :=
  applyChanges pool (pre_signer_on_state_change me crypto tip pool)

/-- Any number of ticks, each against its finalized tip. -/
def runTicks (me : NodeId) (crypto : CryptoService) (tips : List FinalizedTip)
    (pool : EcdsaPool) : EcdsaPool :=
  tips.foldl (runTick me crypto) pool

/-! ## Payload / transcript state machine

Modelled from the spec: `payload_builder.rs` is declared in `ecdsa.rs` but
its body is not part of the excerpt; the definitions follow the module doc
section "ECDSA payload on blocks" and spec section 4.2. -/

/-- A 4-tuple being created: each slot is either absent, "config issued,
transcript pending", or "transcript present" (module doc of `ecdsa.rs`). -/
structure QuadrupleInCreation where
  kappa_config : ConfigId
  kappa_masked : Option Transcript
  lambda_config : ConfigId
  lambda_masked : Option Transcript
  unmask_kappa_config : Option ConfigId
  kappa_unmasked : Option Transcript
  key_times_lambda_config : Option ConfigId
  key_times_lambda : Option Transcript
  kappa_times_lambda_config : Option ConfigId
  kappa_times_lambda : Option Transcript
deriving DecidableEq

/-- An ongoing signing request: a signature request paired with the complete
4-tuple consumed for it. -/
structure OngoingSigning where
  request : SignatureRequest
  quadruple : QuadrupleInCreation
deriving DecidableEq

/-- All four terminal transcripts of the tuple are present. -/
def isComplete (q : QuadrupleInCreation) : Bool :=
  q.kappa_unmasked.isSome && q.lambda_masked.isSome
    && q.key_times_lambda.isSome && q.kappa_times_lambda.isSome

/-- Modelled from the spec: transition rule 5 of section 4.2 — every tuple in
creation whose four terminal transcripts are present graduates: it leaves the
in-creation set and joins the complete-and-available set. -/
def graduate_quadruples (inCreation available : List QuadrupleInCreation) :
    List QuadrupleInCreation × List QuadrupleInCreation :=
  (inCreation.filter (fun q => !isComplete q), available ++ inCreation.filter isComplete)

/-- Does the validated pool hold at least `threshold` shares from distinct
signers for the request's config? -/
def shareCountMet (validated_shares : List SignatureShare) (req : SignatureRequest) : Bool :=
  decide (req.threshold ≤ (distinctSigners validated_shares req.config_id).length)

/-- Modelled from the spec: transition rule 7 of section 4.2 — for each
ongoing signing request whose threshold of distinct-signer shares is met,
aggregate into a full signature (content abstracted, keyed by the request's
config), record the pair (request, signature) for delivery and drop the
ongoing pairing; the others are kept. -/
def sign_completed (validated_shares : List SignatureShare)
    (ongoing : List OngoingSigning) :
    List OngoingSigning × List (SignatureRequest × EcdsaSignature) :=
  (ongoing.filter (fun o => !shareCountMet validated_shares o.request),
   (ongoing.filter (fun o => shareCountMet validated_shares o.request)).map
     (fun o => (o.request, ⟨o.request.config_id⟩)))

/-- Embedding of `timed_call` (`metrics.rs`): the timer observes the call but
the value returned is exactly the closure's result. -/
def timed_call (label : String) (f : Unit → EcdsaChangeSet) : EcdsaChangeSet :=
  f ()

/-- Embedding of `EcdsaImpl::call_with_metrics` (`ecdsa.rs` lines 220-231):
start a timer labelled with the sub-component, then return the closure's
result unchanged. -/
def EcdsaImpl.call_with_metrics (sub_component : String)
    (on_state_change_fn : Unit → EcdsaChangeSet) : EcdsaChangeSet :=
  on_state_change_fn ()

/-- Embedding of `EcdsaImpl::on_state_change` (`ecdsa.rs` lines 233-249):
push the timed PreSigner call's change set onto `changes`, then append every
entry of `changes` into `ret` and return it.  The `pre_signer` trait object
is the parameter. -/
def EcdsaImpl.on_state_change (pre_signer : EcdsaPool → EcdsaChangeSet)
    (ecdsa_pool : EcdsaPool) : EcdsaChangeSet :=
  let changes : List EcdsaChangeSet :=
    [timed_call "pre_signer" (fun _ => pre_signer ecdsa_pool)]
  changes.foldl (fun ret change_set => ret ++ change_set) []

/-- Modelled from the spec: sections 2 and 4.3 describe the facade as calling
the PreSigner and the payload builder, each producing a change set, and
returning their concatenation.  This definition follows those words, for
comparison with the embedding of the code. -/
def on_state_change_spec (pre_signer payload_builder : EcdsaPool → EcdsaChangeSet)
    (ecdsa_pool : EcdsaPool) : EcdsaChangeSet :=
  pre_signer ecdsa_pool ++ payload_builder ecdsa_pool

/-- Identifier of a peer-offered artifact (abstracted). -/
abbrev EcdsaMessageId := Nat

/-- Advert attribute of a peer-offered artifact (abstracted). -/
abbrev EcdsaMessageAttribute := Nat

/-- A priority function ranking peer-offered artifact ids. -/
abbrev PriorityFn := EcdsaMessageId → EcdsaMessageAttribute → Nat

/-- Embedding of `EcdsaGossipImpl::get_priority_function` (`ecdsa.rs` lines
252-260): the body is `todo!()`, a call that panics unconditionally; a
panicking call is embedded as `none` (the call never returns a value). -/
def EcdsaGossipImpl.get_priority_function (ecdsa_pool : EcdsaPool) : Option PriorityFn :=
  none

/-! ## Concrete instances used by witnesses and counterexamples -/

/-- The empty artifact pool. -/
def emptyPool : EcdsaPool :=
  { validated_dealings := []
    unvalidated_dealings := []
    validated_supports := []
    validated_shares := []
    unvalidated_shares := []
    validated_signatures := []
    validated_transcripts := [] }

/-- A crypto service whose every verification succeeds. -/
def cryptoAllValid : CryptoService :=
  { verify_dealing_public := fun _ => VerifyResult.valid
    verify_dealing_private := fun _ => VerifyResult.valid
    verify_share := fun _ => VerifyResult.valid }

/-- A crypto service whose every verification fails operationally. -/
def cryptoAllBroken : CryptoService :=
  { verify_dealing_public := fun _ => VerifyResult.operationalError
    verify_dealing_private := fun _ => VerifyResult.operationalError
    verify_share := fun _ => VerifyResult.operationalError }

/-- A tip at height 1 with one config (dealer: node 0) and no requests. -/
def tip0 : FinalizedTip :=
  { height := 1
    configs := [{ config_id := { id := 0, height := 0 }, dealers := [0] }]
    signature_requests := [] }

/-! ## Keyed-list lemmas -/

theorem hasKey_iff {α κ : Type} [DecidableEq κ] (key : α → κ) (l : List α) (k : κ) :
    hasKey key l k = true ↔ ∃ a ∈ l, key a = k := by
  simp [hasKey, List.any_eq_true]

theorem hasKey_insertByKey_mono {α κ : Type} [DecidableEq κ] (key : α → κ)
    (l : List α) (a : α) (k : κ) (h : hasKey key l k = true) :
    hasKey key (insertByKey key l a) k = true := by
  unfold insertByKey
  split
  · exact h
  · simp only [hasKey, List.any_append] at h ⊢
    simp [h]

theorem hasKey_insertByKey_self {α κ : Type} [DecidableEq κ] (key : α → κ)
    (l : List α) (a : α) : hasKey key (insertByKey key l a) (key a) = true := by
  unfold insertByKey
  split
  · assumption
  · simp [hasKey, List.any_append]

theorem nodup_insertByKey {α κ : Type} [DecidableEq κ] (key : α → κ)
    (l : List α) (a : α) (h : (l.map key).Nodup) :
    ((insertByKey key l a).map key).Nodup := by
  unfold insertByKey
  split
  case isTrue => exact h
  case isFalse h2 =>
    rw [List.map_append, List.nodup_append]
    refine ⟨h, List.nodup_singleton _, ?_⟩
    intro x hx hx2
    simp only [List.map_cons, List.map_nil, List.mem_singleton] at hx2
    subst hx2
    rcases List.mem_map.mp hx with ⟨b, hb, hbk⟩
    exact h2 ((hasKey_iff key l (key a)).mpr ⟨b, hb, hbk⟩)

theorem nodup_map_filter {α κ : Type} (key : α → κ) (p : α → Bool)
    (l : List α) (h : (l.map key).Nodup) : (((l.filter p).map key)).Nodup :=
  List.Nodup.sublist (List.Sublist.map key (List.filter_sublist l)) h

theorem mem_insertByKey_of_mem {α κ : Type} [DecidableEq κ] (key : α → κ)
    (l : List α) (a b : α) (h : a ∈ l) : a ∈ insertByKey key l b := by
  unfold insertByKey
  split
  · exact h
  · exact List.mem_append_left _ h

/-! ## Further concrete instances for witnesses -/

/-- A 4-tuple in creation whose four terminal transcripts are all present. -/
def quadComplete : QuadrupleInCreation :=
  { kappa_config := { id := 10, height := 0 }
    kappa_masked := some { config_id := { id := 10, height := 0 } }
    lambda_config := { id := 11, height := 0 }
    lambda_masked := some { config_id := { id := 11, height := 0 } }
    unmask_kappa_config := some { id := 12, height := 0 }
    kappa_unmasked := some { config_id := { id := 12, height := 0 } }
    key_times_lambda_config := some { id := 13, height := 0 }
    key_times_lambda := some { config_id := { id := 13, height := 0 } }
    kappa_times_lambda_config := some { id := 14, height := 0 }
    kappa_times_lambda := some { config_id := { id := 14, height := 0 } } }

/-- A signing request with threshold 2 over signers 1, 2, 3. -/
def req0 : SignatureRequest :=
  { config_id := { id := 5, height := 0 }, threshold := 2, signers := [1, 2, 3] }

/-- An ongoing signing request pairing `req0` with a complete tuple. -/
def ongoing0 : OngoingSigning := { request := req0, quadruple := quadComplete }

/-- Validated shares for `req0` from the two distinct signers 1 and 2. -/
def shares0 : List SignatureShare :=
  [{ config_id := { id := 5, height := 0 }, signer := 1 },
   { config_id := { id := 5, height := 0 }, signer := 2 }]

/-! ## C2: 4-tuple graduation -/

/-- C2: a 4-tuple in creation is removed from the in-creation set and added
to the complete-and-available set by the graduation step exactly when its
four transcripts kappa_unmasked, lambda_masked, key_times_lambda and
kappa_times_lambda are all present; no tuple with fewer is marked complete. -/
theorem c2_quadruple_graduates_iff_four_transcripts
    (inCreation available : List QuadrupleInCreation) (q : QuadrupleInCreation)
    (hq : q ∈ inCreation) :
    (q ∉ (graduate_quadruples inCreation available).1
      ∧ q ∈ (graduate_quadruples inCreation available).2)
    ↔ isComplete q = true := by
  unfold graduate_quadruples
  constructor
  · rintro ⟨h1, _⟩
    by_contra hc
    exact h1 (List.mem_filter.mpr ⟨hq, by simp [hc]⟩)
  · intro hc
    refine ⟨fun h1 => ?_, ?_⟩
    · have := (List.mem_filter.mp h1).2
      simp [hc] at this
    · exact List.mem_append_right _ (List.mem_filter.mpr ⟨hq, hc⟩)

theorem c2_quadruple_graduates_witness :
    quadComplete ∈ [quadComplete]
    ∧ ((quadComplete ∉ (graduate_quadruples [quadComplete] []).1
        ∧ quadComplete ∈ (graduate_quadruples [quadComplete] []).2)
      ↔ isComplete quadComplete = true) :=
  ⟨by decide,
   c2_quadruple_graduates_iff_four_transcripts [quadComplete] [] quadComplete (by decide)⟩

/-! ## C3: threshold aggregation -/

/-- C3: for every ongoing signing request, the aggregation step produces a
full signature (recorded for delivery) and drops the ongoing pairing exactly
when the validated pool holds at least `threshold` signature shares from
distinct signers for the request's config; with fewer distinct signers no
signature is produced for that request and the pairing is kept. -/
theorem c3_signature_iff_threshold_distinct_signers
    (validated_shares : List SignatureShare) (ongoing : List OngoingSigning)
    (o : OngoingSigning) (ho : o ∈ ongoing) :
    (o ∉ (sign_completed validated_shares ongoing).1
      ∧ (o.request, ({ config_id := o.request.config_id } : EcdsaSignature))
          ∈ (sign_completed validated_shares ongoing).2)
    ↔ o.request.threshold
        ≤ (distinctSigners validated_shares o.request.config_id).length := by
  unfold sign_completed
  constructor
  · rintro ⟨h1, _⟩
    by_contra hc
    have hb : shareCountMet validated_shares o.request = false := by
      simp [shareCountMet, hc]
    exact h1 (List.mem_filter.mpr ⟨ho, by simp [hb]⟩)
  · intro hc
    have hb : shareCountMet validated_shares o.request = true := by
      simp [shareCountMet, hc]
    refine ⟨fun h1 => ?_, ?_⟩
    · have := (List.mem_filter.mp h1).2
      simp [hb] at this
    · exact List.mem_map.mpr ⟨o, List.mem_filter.mpr ⟨ho, hb⟩, rfl⟩

theorem c3_signature_threshold_witness :
    ongoing0 ∈ [ongoing0]
    ∧ ((ongoing0 ∉ (sign_completed shares0 [ongoing0]).1
        ∧ (ongoing0.request, ({ config_id := ongoing0.request.config_id } : EcdsaSignature))
            ∈ (sign_completed shares0 [ongoing0]).2)
      ↔ ongoing0.request.threshold
          ≤ (distinctSigners shares0 ongoing0.request.config_id).length) :=
  ⟨by decide,
   c3_signature_iff_threshold_distinct_signers shares0 [ongoing0] ongoing0 (by decide)⟩

/-! ## C5: payload determinism and the canonical codec

Round-trip lemmas: decoding an encoding recovers the value and the
remaining bytes, so the serialization is a canonical, injective byte form. -/

/-- C6 counterexample: the facade does not return the concatenation of the
PreSigner's and the payload builder's change sets — with a PreSigner that
proposes nothing and a payload builder that proposes one addition, the code's
facade returns the empty change set while the spec-described facade returns
the addition. -/
theorem c6_facade_concatenation_counterexample :
    EcdsaImpl.on_state_change (fun _ => []) emptyPool
      ≠ on_state_change_spec (fun _ => [])
          (fun _ => [EcdsaChange.addToValidated
            (EcdsaMessage.signature { config_id := { id := 0, height := 0 } })])
          emptyPool := by
  decide

/-- C6 (amended): the facade's `on_state_change` invokes only the PreSigner —
the payload builder is declared but not yet wired in — and behaves exactly as
the spec-described facade with an empty payload builder: it returns the
PreSigner's change set, performing no logic of its own. -/
theorem c6_facade_presigner_only (pre_signer : EcdsaPool → EcdsaChangeSet)
    (ecdsa_pool : EcdsaPool) :
    EcdsaImpl.on_state_change pre_signer ecdsa_pool
      = on_state_change_spec pre_signer (fun _ => []) ecdsa_pool := by
  simp [EcdsaImpl.on_state_change, on_state_change_spec, timed_call]

/-! ## C9: the gossip priority hook -/

/-- C9 counterexample: calling `get_priority_function` on a concrete pool
does not complete with a priority function — the body is `todo!()`, which
panics unconditionally. -/
theorem c9_priority_function_counterexample :
    (EcdsaGossipImpl.get_priority_function emptyPool).isSome = false := by
  decide

/-- C9 (amended): `get_priority_function` is unimplemented: for every pool it
panics (`todo!()`) and never returns a priority function. -/
theorem c9_priority_function_unimplemented (pool : EcdsaPool) :
    EcdsaGossipImpl.get_priority_function pool = none := rfl

/-! ## C10: the facade returns the PreSigner's change set verbatim -/

/-- C10: for every pool, `EcdsaImpl::on_state_change` returns the change set
of its single PreSigner sub-component verbatim — same elements, same order —
and the metrics-timing wrapper passes a closure's result through unchanged,
so nothing is added or removed by the facade. -/
theorem c10_on_state_change_returns_pre_signer_verbatim
    (pre_signer : EcdsaPool → EcdsaChangeSet) (ecdsa_pool : EcdsaPool) :
    EcdsaImpl.on_state_change pre_signer ecdsa_pool = pre_signer ecdsa_pool
    ∧ ∀ (s : String) (f : Unit → EcdsaChangeSet), EcdsaImpl.call_with_metrics s f = f () := by
  constructor
  · simp [EcdsaImpl.on_state_change, timed_call]
  · intro s f
    rfl

/-! ## Pool-application lemmas -/

theorem applyChange_dealing_keys_nodup (pool : EcdsaPool) (c : EcdsaChange)
    (h : (pool.validated_dealings.map dealingKey).Nodup) :
    ((applyChange pool c).validated_dealings.map dealingKey).Nodup := by
  cases c <;> rename_i m <;> cases m <;>
    first
      | exact nodup_insertByKey dealingKey _ _ h
      | exact nodup_map_filter dealingKey _ _ h
      | exact h

theorem applyChanges_dealing_keys_nodup (cs : EcdsaChangeSet) (pool : EcdsaPool)
    (h : (pool.validated_dealings.map dealingKey).Nodup) :
    ((applyChanges pool cs).validated_dealings.map dealingKey).Nodup := by
  induction cs generalizing pool with
  | nil => exact h
  | cons c cs ih => exact ih _ (applyChange_dealing_keys_nodup pool c h)

theorem mem_validated_dealings_applyChange (pool : EcdsaPool) (c : EcdsaChange)
    (d : Dealing) (hd : d ∈ pool.validated_dealings)
    (hc : c ≠ EcdsaChange.removeValidated (EcdsaMessage.dealing d)) :
    d ∈ (applyChange pool c).validated_dealings := by
  cases c <;> rename_i m <;> cases m <;>
    first
      | exact mem_insertByKey_of_mem _ _ _ _ hd
      | exact hd
      | (rename_i x
         refine List.mem_filter.mpr ⟨hd, ?_⟩
         simp only [Bool.not_eq_true', decide_eq_false_iff_not]
         intro he
         subst he
         exact hc rfl)

theorem mem_validated_dealings_applyChanges (cs : EcdsaChangeSet) (pool : EcdsaPool)
    (d : Dealing) (hd : d ∈ pool.validated_dealings)
    (hc : ∀ c ∈ cs, c ≠ EcdsaChange.removeValidated (EcdsaMessage.dealing d)) :
    d ∈ (applyChanges pool cs).validated_dealings := by
  induction cs generalizing pool with
  | nil => exact hd
  | cons c cs ih =>
      exact ih _ (mem_validated_dealings_applyChange pool c d hd (hc c (by simp)))
        (fun c2 h2 => hc c2 (by simp [h2]))

theorem mem_unvalidated_dealings_applyChange (pool : EcdsaPool) (c : EcdsaChange)
    (d : Dealing) (hd : d ∈ pool.unvalidated_dealings)
    (hc1 : c ≠ EcdsaChange.moveToValidated (EcdsaMessage.dealing d))
    (hc2 : c ≠ EcdsaChange.removeUnvalidated (EcdsaMessage.dealing d)) :
    d ∈ (applyChange pool c).unvalidated_dealings := by
  cases c <;> rename_i m <;> cases m <;>
    first
      | exact hd
      | (rename_i x
         refine List.mem_filter.mpr ⟨hd, ?_⟩
         simp only [Bool.not_eq_true', decide_eq_false_iff_not]
         intro he
         subst he
         first
           | exact hc1 rfl
           | exact hc2 rfl)

theorem mem_unvalidated_dealings_applyChanges (cs : EcdsaChangeSet) (pool : EcdsaPool)
    (d : Dealing) (hd : d ∈ pool.unvalidated_dealings)
    (hc : ∀ c ∈ cs, c ≠ EcdsaChange.moveToValidated (EcdsaMessage.dealing d)
      ∧ c ≠ EcdsaChange.removeUnvalidated (EcdsaMessage.dealing d)) :
    d ∈ (applyChanges pool cs).unvalidated_dealings := by
  induction cs generalizing pool with
  | nil => exact hd
  | cons c cs ih =>
      exact ih _
        (mem_unvalidated_dealings_applyChange pool c d hd (hc c (by simp)).1 (hc c (by simp)).2)
        (fun c2 h2 => hc c2 (by simp [h2]))

/-! ## Inversion lemmas for the PreSigner operations -/

theorem mem_send_dealings_inv {me : NodeId} {tip : FinalizedTip} {pool : EcdsaPool}
    {c : EcdsaChange} (h : c ∈ send_dealings me tip pool) :
    ∃ cfg ∈ tip.configs, me ∈ cfg.dealers
      ∧ hasValidatedDealing pool cfg.config_id me = false
      ∧ c = EcdsaChange.addToValidated (EcdsaMessage.dealing ⟨cfg.config_id, me⟩) := by
  simp only [send_dealings, List.mem_map, List.mem_filter, Bool.and_eq_true,
    Bool.not_eq_true', decide_eq_true_eq] at h
  rcases h with ⟨cfg, ⟨hmem, hdeal, hval⟩, heq⟩
  exact ⟨cfg, hmem, hdeal, hval, heq.symm⟩

theorem validate_dealing_change_inv {crypto : CryptoService} {tip : FinalizedTip}
    {pool : EcdsaPool} {d : Dealing} {c : EcdsaChange}
    (h : validate_dealing_change crypto tip pool d = some c) :
    d.config_id ∈ tipConfigIds tip
    ∧ hasValidatedDealing pool d.config_id d.dealer = false
    ∧ ((crypto.verify_dealing_public d = VerifyResult.valid
        ∧ c = EcdsaChange.moveToValidated (EcdsaMessage.dealing d))
      ∨ (crypto.verify_dealing_public d = VerifyResult.invalid
        ∧ c = EcdsaChange.removeUnvalidated (EcdsaMessage.dealing d))) := by
  unfold validate_dealing_change at h
  split at h
  case isFalse => exact absurd h (by simp)
  case isTrue hg =>
    rw [Bool.and_eq_true, Bool.not_eq_true'] at hg
    refine ⟨by simpa using hg.1, hg.2, ?_⟩
    split at h
    case h_1 hv => exact Or.inl ⟨hv, (Option.some_inj.mp h).symm⟩
    case h_2 hv => exact Or.inr ⟨hv, (Option.some_inj.mp h).symm⟩
    case h_3 hv => exact absurd h (by simp)

theorem support_change_inv {me : NodeId} {crypto : CryptoService} {pool : EcdsaPool}
    {d : Dealing} {c : EcdsaChange} (h : support_change me crypto pool d = some c) :
    hasValidatedSupport pool d.config_id d.dealer me = false
    ∧ crypto.verify_dealing_private d = VerifyResult.valid
    ∧ c = EcdsaChange.addToValidated
        (EcdsaMessage.support ⟨d.config_id, d.dealer, me⟩) := by
  unfold support_change at h
  split at h
  case isFalse => exact absurd h (by simp)
  case isTrue hg =>
    rw [Bool.not_eq_true'] at hg
    refine ⟨hg, ?_⟩
    split at h
    case h_1 hv => exact ⟨hv, (Option.some_inj.mp h).symm⟩
    case h_2 hv hne => exact absurd h (by simp)

theorem mem_purge_artifacts_inv {tip : FinalizedTip} {pool : EcdsaPool}
    {c : EcdsaChange} (h : c ∈ purge_artifacts tip pool) :
    (∃ d ∈ pool.validated_dealings, is_stale tip d.config_id = true
      ∧ c = EcdsaChange.removeValidated (EcdsaMessage.dealing d))
    ∨ (∃ d ∈ pool.unvalidated_dealings, is_stale tip d.config_id = true
      ∧ c = EcdsaChange.removeUnvalidated (EcdsaMessage.dealing d))
    ∨ (∃ s ∈ pool.validated_supports, is_stale tip s.config_id = true
      ∧ c = EcdsaChange.removeValidated (EcdsaMessage.support s)) := by
  simp only [purge_artifacts, List.mem_append, List.mem_map, List.mem_filter] at h
  rcases h with (⟨d, ⟨hd, hs⟩, heq⟩ | ⟨d, ⟨hd, hs⟩, heq⟩) | ⟨s, ⟨hs2, hs⟩, heq⟩
  · exact Or.inl ⟨d, hd, hs, heq.symm⟩
  · exact Or.inr (Or.inl ⟨d, hd, hs, heq.symm⟩)
  · exact Or.inr (Or.inr ⟨s, hs2, hs, heq.symm⟩)

theorem mem_send_signature_shares_inv {me : NodeId} {tip : FinalizedTip}
    {pool : EcdsaPool} {c : EcdsaChange} (h : c ∈ send_signature_shares me tip pool) :
    ∃ req ∈ tip.signature_requests, me ∈ req.signers
      ∧ hasValidatedShare pool req.config_id me = false
      ∧ c = EcdsaChange.addToValidated (EcdsaMessage.share ⟨req.config_id, me⟩) := by
  simp only [send_signature_shares, List.mem_map, List.mem_filter, Bool.and_eq_true,
    Bool.not_eq_true', decide_eq_true_eq] at h
  rcases h with ⟨req, ⟨hmem, hsig, hval⟩, heq⟩
  exact ⟨req, hmem, hsig, hval, heq.symm⟩

theorem validate_share_change_inv {crypto : CryptoService} {tip : FinalizedTip}
    {pool : EcdsaPool} {s : SignatureShare} {c : EcdsaChange}
    (h : validate_share_change crypto tip pool s = some c) :
    s.config_id ∈ tipConfigIds tip
    ∧ hasValidatedShare pool s.config_id s.signer = false
    ∧ ((crypto.verify_share s = VerifyResult.valid
        ∧ c = EcdsaChange.moveToValidated (EcdsaMessage.share s))
      ∨ (crypto.verify_share s = VerifyResult.invalid
        ∧ c = EcdsaChange.removeUnvalidated (EcdsaMessage.share s))) := by
  unfold validate_share_change at h
  split at h
  case isFalse => exact absurd h (by simp)
  case isTrue hg =>
    rw [Bool.and_eq_true, Bool.not_eq_true'] at hg
    refine ⟨by simpa using hg.1, hg.2, ?_⟩
    split at h
    case h_1 hv => exact Or.inl ⟨hv, (Option.some_inj.mp h).symm⟩
    case h_2 hv => exact Or.inr ⟨hv, (Option.some_inj.mp h).symm⟩
    case h_3 hv => exact absurd h (by simp)

theorem mem_aggregate_signatures_inv {tip : FinalizedTip} {pool : EcdsaPool}
    {c : EcdsaChange} (h : c ∈ aggregate_signatures tip pool) :
    ∃ req ∈ tip.signature_requests,
      hasValidatedSignature pool req.config_id = false
      ∧ req.threshold ≤ (distinctSigners pool.validated_shares req.config_id).length
      ∧ c = EcdsaChange.addToValidated (EcdsaMessage.signature ⟨req.config_id⟩) := by
  simp only [aggregate_signatures, List.mem_map, List.mem_filter, Bool.and_eq_true,
    Bool.not_eq_true', decide_eq_true_eq] at h
  rcases h with ⟨req, ⟨hmem, hsig, hval⟩, heq⟩
  exact ⟨req, hmem, hsig, hval, heq.symm⟩

/-! ## C1: at most one validated dealing per (config, dealer) key -/

theorem presigner_dealing_add_guard (me : NodeId) (crypto : CryptoService)
    (tip : FinalizedTip) (pool : EcdsaPool) (d : Dealing)
    (h : EcdsaChange.addToValidated (EcdsaMessage.dealing d)
          ∈ pre_signer_on_state_change me crypto tip pool
      ∨ EcdsaChange.moveToValidated (EcdsaMessage.dealing d)
          ∈ pre_signer_on_state_change me crypto tip pool) :
    hasValidatedDealing pool d.config_id d.dealer = false := by
  have main : ∀ c : EcdsaChange, c ∈ pre_signer_on_state_change me crypto tip pool →
      (c = EcdsaChange.addToValidated (EcdsaMessage.dealing d)
        ∨ c = EcdsaChange.moveToValidated (EcdsaMessage.dealing d)) →
      hasValidatedDealing pool d.config_id d.dealer = false := by
    intro c hc hshape
    simp only [pre_signer_on_state_change, List.mem_append] at hc
    rcases hc with ((((((hc | hc) | hc) | hc) | hc) | hc) | hc)
    · rcases mem_send_dealings_inv hc with ⟨cfg, _, _, hval, heq⟩
      subst heq
      rcases hshape with heq2 | heq2
      · obtain ⟨rfl⟩ : (⟨cfg.config_id, me⟩ : Dealing) = d := by
          injection heq2 with h3
          injection h3
        exact hval
      · exact absurd heq2 (by simp)
    · rcases List.mem_filterMap.mp hc with ⟨x, _, hx⟩
      rcases validate_dealing_change_inv hx with ⟨_, hval, hcase⟩
      rcases hcase with ⟨_, rfl⟩ | ⟨_, rfl⟩
      · rcases hshape with heq2 | heq2
        · exact absurd heq2 (by simp)
        · obtain rfl : x = d := by
            injection heq2 with h3
            injection h3
          exact hval
      · rcases hshape with heq2 | heq2 <;> exact absurd heq2 (by simp)
    · rcases List.mem_filterMap.mp hc with ⟨x, _, hx⟩
      rcases support_change_inv hx with ⟨_, _, rfl⟩
      rcases hshape with heq2 | heq2 <;> exact absurd heq2 (by simp)
    · rcases mem_purge_artifacts_inv hc with ⟨x, _, _, rfl⟩ | ⟨x, _, _, rfl⟩ | ⟨x, _, _, rfl⟩ <;>
        (rcases hshape with heq2 | heq2 <;> exact absurd heq2 (by simp))
    · rcases mem_send_signature_shares_inv hc with ⟨req, _, _, _, rfl⟩
      rcases hshape with heq2 | heq2 <;> exact absurd heq2 (by simp)
    · rcases List.mem_filterMap.mp hc with ⟨x, _, hx⟩
      rcases validate_share_change_inv hx with ⟨_, _, hcase⟩
      rcases hcase with ⟨_, rfl⟩ | ⟨_, rfl⟩ <;>
        (rcases hshape with heq2 | heq2 <;> exact absurd heq2 (by simp))
    · rcases mem_aggregate_signatures_inv hc with ⟨req, _, _, _, rfl⟩
      rcases hshape with heq2 | heq2 <;> exact absurd heq2 (by simp)
  rcases h with h | h
  · exact main _ h (Or.inl rfl)
  · exact main _ h (Or.inr rfl)

theorem runTicks_dealing_keys_nodup (me : NodeId) (crypto : CryptoService)
    (tips : List FinalizedTip) (pool : EcdsaPool)
    (h : (pool.validated_dealings.map dealingKey).Nodup) :
    ((runTicks me crypto tips pool).validated_dealings.map dealingKey).Nodup := by
  induction tips generalizing pool with
  | nil => exact h
  | cons tip tips ih => exact ih _ (applyChanges_dealing_keys_nodup _ pool h)

/-- C1: across any number of on_state_change ticks (each against its
finalized tip), the validated partition holds at most one dealing per
(config id, dealer) key; and a dealing is added to (or moved into) the
validated partition by a tick only when no validated dealing with the same
key is already present in the pool the tick read. -/
theorem c1_validated_dealing_key_unique (me : NodeId) (crypto : CryptoService)
    (tips : List FinalizedTip) (pool : EcdsaPool)
    (h : (pool.validated_dealings.map dealingKey).Nodup) :
    ((runTicks me crypto tips pool).validated_dealings.map dealingKey).Nodup
    ∧ ∀ (tip : FinalizedTip) (p : EcdsaPool) (d : Dealing),
        (EcdsaChange.addToValidated (EcdsaMessage.dealing d)
            ∈ pre_signer_on_state_change me crypto tip p
          ∨ EcdsaChange.moveToValidated (EcdsaMessage.dealing d)
            ∈ pre_signer_on_state_change me crypto tip p)
        → hasValidatedDealing p d.config_id d.dealer = false :=
  ⟨runTicks_dealing_keys_nodup me crypto tips pool h,
   fun tip p d hmem => presigner_dealing_add_guard me crypto tip p d hmem⟩

theorem c1_validated_dealing_key_unique_witness :
    (emptyPool.validated_dealings.map dealingKey).Nodup
    ∧ (((runTicks 0 cryptoAllValid [tip0] emptyPool).validated_dealings.map dealingKey).Nodup
      ∧ ∀ (tip : FinalizedTip) (p : EcdsaPool) (d : Dealing),
          (EcdsaChange.addToValidated (EcdsaMessage.dealing d)
              ∈ pre_signer_on_state_change 0 cryptoAllValid tip p
            ∨ EcdsaChange.moveToValidated (EcdsaMessage.dealing d)
              ∈ pre_signer_on_state_change 0 cryptoAllValid tip p)
          → hasValidatedDealing p d.config_id d.dealer = false) :=
  ⟨by decide, c1_validated_dealing_key_unique 0 cryptoAllValid [tip0] emptyPool (by decide)⟩

/-! ## C7: operational crypto errors leave the artifact pending -/

theorem presigner_no_unval_dealing_removal (me : NodeId) (crypto : CryptoService)
    (tip : FinalizedTip) (pool : EcdsaPool) (d : Dealing)
    (h2 : d.config_id ∈ tipConfigIds tip)
    (h4 : crypto.verify_dealing_public d = VerifyResult.operationalError) :
    ∀ c ∈ pre_signer_on_state_change me crypto tip pool,
      c ≠ EcdsaChange.moveToValidated (EcdsaMessage.dealing d)
      ∧ c ≠ EcdsaChange.removeUnvalidated (EcdsaMessage.dealing d) := by
  intro c hc
  simp only [pre_signer_on_state_change, List.mem_append] at hc
  rcases hc with ((((((hc | hc) | hc) | hc) | hc) | hc) | hc)
  · rcases mem_send_dealings_inv hc with ⟨cfg, _, _, _, rfl⟩
    exact ⟨by simp, by simp⟩
  · rcases List.mem_filterMap.mp hc with ⟨x, _, hx⟩
    rcases validate_dealing_change_inv hx with ⟨_, _, hcase⟩
    rcases hcase with ⟨hv, rfl⟩ | ⟨hv, rfl⟩
    · refine ⟨?_, by simp⟩
      intro he
      obtain rfl : x = d := by
        injection he with h3
        injection h3
      rw [h4] at hv
      exact absurd hv (by simp)
    · refine ⟨by simp, ?_⟩
      intro he
      obtain rfl : x = d := by
        injection he with h3
        injection h3
      rw [h4] at hv
      exact absurd hv (by simp)
  · rcases List.mem_filterMap.mp hc with ⟨x, _, hx⟩
    rcases support_change_inv hx with ⟨_, _, rfl⟩
    exact ⟨by simp, by simp⟩
  · rcases mem_purge_artifacts_inv hc with ⟨x, _, hs, rfl⟩ | ⟨x, _, hs, rfl⟩ | ⟨x, _, hs, rfl⟩
    · exact ⟨by simp, by simp⟩
    · refine ⟨by simp, ?_⟩
      intro he
      obtain rfl : x = d := by
        injection he with h3
        injection h3
      rw [is_stale, Bool.and_eq_true, Bool.not_eq_true', decide_eq_false_iff_not] at hs
      exact hs.1 h2
    · exact ⟨by simp, by simp⟩
  · rcases mem_send_signature_shares_inv hc with ⟨req, _, _, _, rfl⟩
    exact ⟨by simp, by simp⟩
  · rcases List.mem_filterMap.mp hc with ⟨x, _, hx⟩
    rcases validate_share_change_inv hx with ⟨_, _, hcase⟩
    rcases hcase with ⟨_, rfl⟩ | ⟨_, rfl⟩ <;> exact ⟨by simp, by simp⟩
  · rcases mem_aggregate_signatures_inv hc with ⟨req, _, _, _, rfl⟩
    exact ⟨by simp, by simp⟩

/-! ## C8: garbage collection removes exactly the stale artifacts -/

/-- A validated dealing whose config is no longer live in `tip0` and is
strictly older than `tip0`. -/
def staleDealing : Dealing := { config_id := { id := 99, height := 0 }, dealer := 2 }

/-- A pool holding only `staleDealing`. -/
def poolWithStale : EcdsaPool := { emptyPool with validated_dealings := [staleDealing] }

/-- C8: the garbage-collection step proposes the removal of a dealing
(validated or unvalidated) or of a support exactly when the artifact is in
the pool, its config id is no longer an element of the tip's live configs,
and it is strictly older than the tip; a validated dealing whose config is
still live, or which is not strictly older than the tip, is kept in the pool
when the change set is applied. -/
theorem c8_garbage_collection_iff (tip : FinalizedTip) (pool : EcdsaPool) (d : Dealing) :
    (EcdsaChange.removeValidated (EcdsaMessage.dealing d) ∈ purge_artifacts tip pool
      ↔ d ∈ pool.validated_dealings
        ∧ ¬ d.config_id ∈ tipConfigIds tip ∧ d.config_id.height < tip.height)
    ∧ (EcdsaChange.removeUnvalidated (EcdsaMessage.dealing d) ∈ purge_artifacts tip pool
      ↔ d ∈ pool.unvalidated_dealings
        ∧ ¬ d.config_id ∈ tipConfigIds tip ∧ d.config_id.height < tip.height)
    ∧ (∀ s : DealingSupport,
        EcdsaChange.removeValidated (EcdsaMessage.support s) ∈ purge_artifacts tip pool
        ↔ s ∈ pool.validated_supports
          ∧ ¬ s.config_id ∈ tipConfigIds tip ∧ s.config_id.height < tip.height)
    ∧ (d ∈ pool.validated_dealings
        → (d.config_id ∈ tipConfigIds tip ∨ ¬ d.config_id.height < tip.height)
        → d ∈ (applyChanges pool (purge_artifacts tip pool)).validated_dealings) := by
  refine ⟨?_, ?_, ?_, ?_⟩
  · simp only [purge_artifacts, is_stale, List.mem_append, List.mem_map, List.mem_filter,
      Bool.and_eq_true, Bool.not_eq_true', decide_eq_false_iff_not, decide_eq_true_eq,
      EcdsaChange.removeValidated.injEq, EcdsaChange.removeUnvalidated.injEq,
      EcdsaMessage.dealing.injEq, EcdsaMessage.support.injEq, reduceCtorEq,
      and_false, exists_false, or_false, false_or, and_assoc]
    constructor
    · rintro ⟨a, ha, h1, h2, rfl⟩
      exact ⟨ha, h1, h2⟩
    · rintro ⟨ha, h1, h2⟩
      exact ⟨d, ha, h1, h2, rfl⟩
  · simp only [purge_artifacts, is_stale, List.mem_append, List.mem_map, List.mem_filter,
      Bool.and_eq_true, Bool.not_eq_true', decide_eq_false_iff_not, decide_eq_true_eq,
      EcdsaChange.removeValidated.injEq, EcdsaChange.removeUnvalidated.injEq,
      EcdsaMessage.dealing.injEq, EcdsaMessage.support.injEq, reduceCtorEq,
      and_false, exists_false, or_false, false_or, and_assoc]
    constructor
    · rintro ⟨a, ha, h1, h2, rfl⟩
      exact ⟨ha, h1, h2⟩
    · rintro ⟨ha, h1, h2⟩
      exact ⟨d, ha, h1, h2, rfl⟩
  · intro s
    simp only [purge_artifacts, is_stale, List.mem_append, List.mem_map, List.mem_filter,
      Bool.and_eq_true, Bool.not_eq_true', decide_eq_false_iff_not, decide_eq_true_eq,
      EcdsaChange.removeValidated.injEq, EcdsaChange.removeUnvalidated.injEq,
      EcdsaMessage.dealing.injEq, EcdsaMessage.support.injEq, reduceCtorEq,
      and_false, exists_false, or_false, false_or, and_assoc]
    constructor
    · rintro ⟨a, ha, h1, h2, rfl⟩
      exact ⟨ha, h1, h2⟩
    · rintro ⟨ha, h1, h2⟩
      exact ⟨s, ha, h1, h2, rfl⟩
  · intro hd hlive
    refine mem_validated_dealings_applyChanges _ pool d hd ?_
    intro c hcm heq
    rw [heq] at hcm
    rcases mem_purge_artifacts_inv hcm with ⟨x, _, hs, hx⟩ | ⟨x, _, hs, hx⟩ | ⟨x, _, hs, hx⟩
    · obtain rfl : d = x := by
        injection hx with h3
        injection h3
      rw [is_stale, Bool.and_eq_true, Bool.not_eq_true', decide_eq_false_iff_not,
        decide_eq_true_eq] at hs
      rcases hlive with hl | hl
      · exact hs.1 hl
      · exact hl hs.2
    · exact absurd hx (by simp)
    · exact absurd hx (by simp)

theorem c8_garbage_collection_witness :
    (EcdsaChange.removeValidated (EcdsaMessage.dealing staleDealing)
        ∈ purge_artifacts tip0 poolWithStale
      ↔ staleDealing ∈ poolWithStale.validated_dealings
        ∧ ¬ staleDealing.config_id ∈ tipConfigIds tip0
        ∧ staleDealing.config_id.height < tip0.height)
    ∧ (EcdsaChange.removeUnvalidated (EcdsaMessage.dealing staleDealing)
        ∈ purge_artifacts tip0 poolWithStale
      ↔ staleDealing ∈ poolWithStale.unvalidated_dealings
        ∧ ¬ staleDealing.config_id ∈ tipConfigIds tip0
        ∧ staleDealing.config_id.height < tip0.height)
    ∧ (∀ s : DealingSupport,
        EcdsaChange.removeValidated (EcdsaMessage.support s)
          ∈ purge_artifacts tip0 poolWithStale
        ↔ s ∈ poolWithStale.validated_supports
          ∧ ¬ s.config_id ∈ tipConfigIds tip0 ∧ s.config_id.height < tip0.height)
    ∧ (staleDealing ∈ poolWithStale.validated_dealings
        → (staleDealing.config_id ∈ tipConfigIds tip0
            ∨ ¬ staleDealing.config_id.height < tip0.height)
        → staleDealing
            ∈ (applyChanges poolWithStale (purge_artifacts tip0 poolWithStale)).validated_dealings) :=
  c8_garbage_collection_iff tip0 poolWithStale staleDealing

/-! ## C4: idempotence of the individual operations -/

theorem hasKey_foldl_insert_mono {α κ : Type} [DecidableEq κ] (key : α → κ)
    (ds : List α) (l : List α) (k : κ) (h : hasKey key l k = true) :
    hasKey key (ds.foldl (insertByKey key) l) k = true := by
  induction ds generalizing l with
  | nil => exact h
  | cons d ds ih => exact ih _ (hasKey_insertByKey_mono key l d k h)

theorem hasKey_foldl_insert_of_mem {α κ : Type} [DecidableEq κ] (key : α → κ)
    (ds : List α) (l : List α) (a : α) (ha : a ∈ ds) :
    hasKey key (ds.foldl (insertByKey key) l) (key a) = true := by
  induction ds generalizing l with
  | nil => cases ha
  | cons d ds ih =>
      rcases List.mem_cons.mp ha with h | h
      · subst h
        exact hasKey_foldl_insert_mono key ds _ _ (hasKey_insertByKey_self key l a)
      · exact ih _ h

theorem applyChanges_add_dealings (ds : List Dealing) (pool : EcdsaPool) :
    applyChanges pool
        (ds.map (fun d => EcdsaChange.addToValidated (EcdsaMessage.dealing d)))
      = { pool with
            validated_dealings :=
              ds.foldl (insertByKey dealingKey) pool.validated_dealings } := by
  induction ds generalizing pool with
  | nil => rfl
  | cons d ds ih => exact ih _

theorem applyChanges_add_shares (ds : List SignatureShare) (pool : EcdsaPool) :
    applyChanges pool
        (ds.map (fun s => EcdsaChange.addToValidated (EcdsaMessage.share s)))
      = { pool with
            validated_shares :=
              ds.foldl (insertByKey shareKey) pool.validated_shares } := by
  induction ds generalizing pool with
  | nil => rfl
  | cons d ds ih => exact ih _

theorem applyChanges_add_signatures (ds : List EcdsaSignature) (pool : EcdsaPool) :
    applyChanges pool
        (ds.map (fun s => EcdsaChange.addToValidated (EcdsaMessage.signature s)))
      = { pool with
            validated_signatures :=
              ds.foldl (insertByKey signatureKey) pool.validated_signatures } := by
  induction ds generalizing pool with
  | nil => rfl
  | cons d ds ih => exact ih _

theorem send_dealings_idempotent (me : NodeId) (tip : FinalizedTip) (pool : EcdsaPool) :
    send_dealings me tip (applyChanges pool (send_dealings me tip pool)) = [] := by
  have hrw : send_dealings me tip pool
      = ((tip.configs.filter
            (fun c => decide (me ∈ c.dealers) && !hasValidatedDealing pool c.config_id me)).map
          (fun c => (⟨c.config_id, me⟩ : Dealing))).map
          (fun d => EcdsaChange.addToValidated (EcdsaMessage.dealing d)) := by
    rw [List.map_map]
    rfl
  rw [hrw, applyChanges_add_dealings]
  rw [send_dealings, List.map_eq_nil_iff, List.filter_eq_nil_iff]
  intro c hc
  rw [Bool.and_eq_true, not_and]
  intro hdealer
  rw [Bool.not_eq_true, Bool.not_eq_false']
  by_cases hv : hasValidatedDealing pool c.config_id me = true
  · exact hasKey_foldl_insert_mono dealingKey _ _ _ hv
  · have hvf : hasValidatedDealing pool c.config_id me = false := Bool.eq_false_iff.mpr hv
    have hcf : c ∈ tip.configs.filter
        (fun c => decide (me ∈ c.dealers) && !hasValidatedDealing pool c.config_id me) :=
      List.mem_filter.mpr ⟨hc, by simp [hdealer, hvf]⟩
    have hmem : (⟨c.config_id, me⟩ : Dealing) ∈ (tip.configs.filter
        (fun c => decide (me ∈ c.dealers) && !hasValidatedDealing pool c.config_id me)).map
          (fun c => (⟨c.config_id, me⟩ : Dealing)) :=
      List.mem_map.mpr ⟨c, hcf, rfl⟩
    exact hasKey_foldl_insert_of_mem dealingKey _ _ _ hmem

theorem send_signature_shares_idempotent (me : NodeId) (tip : FinalizedTip)
    (pool : EcdsaPool) :
    send_signature_shares me tip
      (applyChanges pool (send_signature_shares me tip pool)) = [] := by
  have hrw : send_signature_shares me tip pool
      = ((tip.signature_requests.filter
            (fun r => decide (me ∈ r.signers) && !hasValidatedShare pool r.config_id me)).map
          (fun r => (⟨r.config_id, me⟩ : SignatureShare))).map
          (fun s => EcdsaChange.addToValidated (EcdsaMessage.share s)) := by
    rw [List.map_map]
    rfl
  rw [hrw, applyChanges_add_shares]
  rw [send_signature_shares, List.map_eq_nil_iff, List.filter_eq_nil_iff]
  intro r hr
  rw [Bool.and_eq_true, not_and]
  intro hsigner
  rw [Bool.not_eq_true, Bool.not_eq_false']
  by_cases hv : hasValidatedShare pool r.config_id me = true
  · exact hasKey_foldl_insert_mono shareKey _ _ _ hv
  · have hvf : hasValidatedShare pool r.config_id me = false := Bool.eq_false_iff.mpr hv
    have hrf : r ∈ tip.signature_requests.filter
        (fun r => decide (me ∈ r.signers) && !hasValidatedShare pool r.config_id me) :=
      List.mem_filter.mpr ⟨hr, by simp [hsigner, hvf]⟩
    have hmem : (⟨r.config_id, me⟩ : SignatureShare) ∈ (tip.signature_requests.filter
        (fun r => decide (me ∈ r.signers) && !hasValidatedShare pool r.config_id me)).map
          (fun r => (⟨r.config_id, me⟩ : SignatureShare)) :=
      List.mem_map.mpr ⟨r, hrf, rfl⟩
    exact hasKey_foldl_insert_of_mem shareKey _ _ _ hmem

theorem aggregate_signatures_idempotent (tip : FinalizedTip) (pool : EcdsaPool) :
    aggregate_signatures tip (applyChanges pool (aggregate_signatures tip pool)) = [] := by
  have hrw : aggregate_signatures tip pool
      = ((tip.signature_requests.filter
            (fun req => !hasValidatedSignature pool req.config_id
              && decide (req.threshold
                  ≤ (distinctSigners pool.validated_shares req.config_id).length))).map
          (fun req => (⟨req.config_id⟩ : EcdsaSignature))).map
          (fun s => EcdsaChange.addToValidated (EcdsaMessage.signature s)) := by
    rw [List.map_map]
    rfl
  rw [hrw, applyChanges_add_signatures]
  rw [aggregate_signatures, List.map_eq_nil_iff, List.filter_eq_nil_iff]
  intro req hreq
  rw [Bool.not_eq_true, Bool.and_eq_false_iff]
  by_cases hv : hasValidatedSignature pool req.config_id = true
  · left
    rw [Bool.not_eq_false']
    exact hasKey_foldl_insert_mono signatureKey _ _ _ hv
  · by_cases hcount :
        req.threshold ≤ (distinctSigners pool.validated_shares req.config_id).length
    · left
      rw [Bool.not_eq_false']
      have hrf : req ∈ tip.signature_requests.filter
          (fun req => !hasValidatedSignature pool req.config_id
            && decide (req.threshold
                ≤ (distinctSigners pool.validated_shares req.config_id).length)) := by
        refine List.mem_filter.mpr ⟨hreq, ?_⟩
        rw [Bool.and_eq_true, Bool.not_eq_true']
        exact ⟨Bool.eq_false_iff.mpr hv, by simpa using hcount⟩
      have hmem : (⟨req.config_id⟩ : EcdsaSignature) ∈ (tip.signature_requests.filter
          (fun req => !hasValidatedSignature pool req.config_id
            && decide (req.threshold
                ≤ (distinctSigners pool.validated_shares req.config_id).length))).map
            (fun req => (⟨req.config_id⟩ : EcdsaSignature)) :=
        List.mem_map.mpr ⟨req, hrf, rfl⟩
      exact hasKey_foldl_insert_of_mem signatureKey _ _ _ hmem
    · right
      rw [decide_eq_false_iff_not]
      exact hcount

/-- C4 counterexample: re-running `on_state_change` immediately after its
previous change set has been applied need not return an empty change set.
Concretely: from the empty pool under `tip0` the first tick adds this
node's dealing; once that change set is applied, the next tick proposes a
support message for the freshly validated dealing, so the re-run's change
set is non-empty — one application does not reach the fixed point. -/
theorem c4_rerun_after_apply_counterexample :
    pre_signer_on_state_change 0 cryptoAllValid tip0
        (runTick 0 cryptoAllValid emptyPool tip0) ≠ [] := by
  decide

/-! ## Subset, removal and monotonicity lemmas for pool application -/

theorem unval_dealings_applyChange_subset (pool : EcdsaPool) (c : EcdsaChange)
    (d : Dealing) (h : d ∈ (applyChange pool c).unvalidated_dealings) :
    d ∈ pool.unvalidated_dealings := by
  cases c <;> rename_i m <;> cases m <;>
    first
      | exact h
      | exact (List.mem_filter.mp h).1

theorem unval_dealings_applyChanges_subset (cs : EcdsaChangeSet) (pool : EcdsaPool)
    (d : Dealing) (h : d ∈ (applyChanges pool cs).unvalidated_dealings) :
    d ∈ pool.unvalidated_dealings := by
  induction cs generalizing pool with
  | nil => exact h
  | cons c cs ih => exact unval_dealings_applyChange_subset pool c d (ih _ h)

theorem unval_shares_applyChange_subset (pool : EcdsaPool) (c : EcdsaChange)
    (s : SignatureShare) (h : s ∈ (applyChange pool c).unvalidated_shares) :
    s ∈ pool.unvalidated_shares := by
  cases c <;> rename_i m <;> cases m <;>
    first
      | exact h
      | exact (List.mem_filter.mp h).1

theorem unval_shares_applyChanges_subset (cs : EcdsaChangeSet) (pool : EcdsaPool)
    (s : SignatureShare) (h : s ∈ (applyChanges pool cs).unvalidated_shares) :
    s ∈ pool.unvalidated_shares := by
  induction cs generalizing pool with
  | nil => exact h
  | cons c cs ih => exact unval_shares_applyChange_subset pool c s (ih _ h)

theorem not_mem_unval_dealings_applyChanges (cs : EcdsaChangeSet) (pool : EcdsaPool)
    (d : Dealing)
    (h : EcdsaChange.moveToValidated (EcdsaMessage.dealing d) ∈ cs
      ∨ EcdsaChange.removeUnvalidated (EcdsaMessage.dealing d) ∈ cs) :
    d ∉ (applyChanges pool cs).unvalidated_dealings := by
  induction cs generalizing pool with
  | nil => rcases h with h | h <;> cases h
  | cons c cs ih =>
      by_cases hc : c = EcdsaChange.moveToValidated (EcdsaMessage.dealing d)
        ∨ c = EcdsaChange.removeUnvalidated (EcdsaMessage.dealing d)
      · intro hmem
        have hd2 : d ∈ (applyChange pool c).unvalidated_dealings :=
          unval_dealings_applyChanges_subset cs _ d hmem
        rcases hc with rfl | rfl
        · have := (List.mem_filter.mp hd2).2
          simp at this
        · have := (List.mem_filter.mp hd2).2
          simp at this
      · rw [not_or] at hc
        have h2 : EcdsaChange.moveToValidated (EcdsaMessage.dealing d) ∈ cs
            ∨ EcdsaChange.removeUnvalidated (EcdsaMessage.dealing d) ∈ cs := by
          rcases h with h | h
          · rcases List.mem_cons.mp h with he | hm
            · exact absurd he.symm hc.1
            · exact Or.inl hm
          · rcases List.mem_cons.mp h with he | hm
            · exact absurd he.symm hc.2
            · exact Or.inr hm
        exact ih _ h2

theorem not_mem_unval_shares_applyChanges (cs : EcdsaChangeSet) (pool : EcdsaPool)
    (s : SignatureShare)
    (h : EcdsaChange.moveToValidated (EcdsaMessage.share s) ∈ cs
      ∨ EcdsaChange.removeUnvalidated (EcdsaMessage.share s) ∈ cs) :
    s ∉ (applyChanges pool cs).unvalidated_shares := by
  induction cs generalizing pool with
  | nil => rcases h with h | h <;> cases h
  | cons c cs ih =>
      by_cases hc : c = EcdsaChange.moveToValidated (EcdsaMessage.share s)
        ∨ c = EcdsaChange.removeUnvalidated (EcdsaMessage.share s)
      · intro hmem
        have hs2 : s ∈ (applyChange pool c).unvalidated_shares :=
          unval_shares_applyChanges_subset cs _ s hmem
        rcases hc with rfl | rfl
        · have := (List.mem_filter.mp hs2).2
          simp at this
        · have := (List.mem_filter.mp hs2).2
          simp at this
      · rw [not_or] at hc
        have h2 : EcdsaChange.moveToValidated (EcdsaMessage.share s) ∈ cs
            ∨ EcdsaChange.removeUnvalidated (EcdsaMessage.share s) ∈ cs := by
          rcases h with h | h
          · rcases List.mem_cons.mp h with he | hm
            · exact absurd he.symm hc.1
            · exact Or.inl hm
          · rcases List.mem_cons.mp h with he | hm
            · exact absurd he.symm hc.2
            · exact Or.inr hm
        exact ih _ h2

theorem hasKey_validated_dealings_applyChange_mono (pool : EcdsaPool)
    (c : EcdsaChange) (k : ConfigId × NodeId)
    (hc : ∀ x, c ≠ EcdsaChange.removeValidated (EcdsaMessage.dealing x))
    (h : hasKey dealingKey pool.validated_dealings k = true) :
    hasKey dealingKey (applyChange pool c).validated_dealings k = true := by
  cases c <;> rename_i m <;> cases m <;>
    first
      | exact h
      | exact hasKey_insertByKey_mono dealingKey _ _ k h
      | (rename_i x
         exact absurd rfl (hc x))

theorem hasKey_validated_dealings_applyChanges_mono (cs : EcdsaChangeSet)
    (pool : EcdsaPool) (k : ConfigId × NodeId)
    (hc : ∀ c ∈ cs, ∀ x, c ≠ EcdsaChange.removeValidated (EcdsaMessage.dealing x))
    (h : hasKey dealingKey pool.validated_dealings k = true) :
    hasKey dealingKey (applyChanges pool cs).validated_dealings k = true := by
  induction cs generalizing pool with
  | nil => exact h
  | cons c cs ih =>
      exact ih _ (fun c2 h2 x => hc c2 (by simp [h2]) x)
        (hasKey_validated_dealings_applyChange_mono pool c k (hc c (by simp)) h)

theorem hasKey_validated_shares_applyChange_mono (pool : EcdsaPool)
    (c : EcdsaChange) (k : ConfigId × NodeId)
    (hc : ∀ x, c ≠ EcdsaChange.removeValidated (EcdsaMessage.share x))
    (h : hasKey shareKey pool.validated_shares k = true) :
    hasKey shareKey (applyChange pool c).validated_shares k = true := by
  cases c <;> rename_i m <;> cases m <;>
    first
      | exact h
      | exact hasKey_insertByKey_mono shareKey _ _ k h
      | (rename_i x
         exact absurd rfl (hc x))

theorem hasKey_validated_shares_applyChanges_mono (cs : EcdsaChangeSet)
    (pool : EcdsaPool) (k : ConfigId × NodeId)
    (hc : ∀ c ∈ cs, ∀ x, c ≠ EcdsaChange.removeValidated (EcdsaMessage.share x))
    (h : hasKey shareKey pool.validated_shares k = true) :
    hasKey shareKey (applyChanges pool cs).validated_shares k = true := by
  induction cs generalizing pool with
  | nil => exact h
  | cons c cs ih =>
      exact ih _ (fun c2 h2 x => hc c2 (by simp [h2]) x)
        (hasKey_validated_shares_applyChange_mono pool c k (hc c (by simp)) h)

theorem hasKey_validated_supports_applyChange_mono (pool : EcdsaPool)
    (c : EcdsaChange) (k : ConfigId × NodeId × NodeId)
    (hc : ∀ x, c ≠ EcdsaChange.removeValidated (EcdsaMessage.support x))
    (h : hasKey supportKey pool.validated_supports k = true) :
    hasKey supportKey (applyChange pool c).validated_supports k = true := by
  cases c <;> rename_i m <;> cases m <;>
    first
      | exact h
      | exact hasKey_insertByKey_mono supportKey _ _ k h
      | (rename_i x
         exact absurd rfl (hc x))

theorem hasKey_validated_supports_applyChanges_mono (cs : EcdsaChangeSet)
    (pool : EcdsaPool) (k : ConfigId × NodeId × NodeId)
    (hc : ∀ c ∈ cs, ∀ x, c ≠ EcdsaChange.removeValidated (EcdsaMessage.support x))
    (h : hasKey supportKey pool.validated_supports k = true) :
    hasKey supportKey (applyChanges pool cs).validated_supports k = true := by
  induction cs generalizing pool with
  | nil => exact h
  | cons c cs ih =>
      exact ih _ (fun c2 h2 x => hc c2 (by simp [h2]) x)
        (hasKey_validated_supports_applyChange_mono pool c k (hc c (by simp)) h)

theorem hasKey_validated_supports_after_add (cs : EcdsaChangeSet) (pool : EcdsaPool)
    (s : DealingSupport)
    (hmem : EcdsaChange.addToValidated (EcdsaMessage.support s) ∈ cs)
    (hc : ∀ c ∈ cs, ∀ x, c ≠ EcdsaChange.removeValidated (EcdsaMessage.support x)) :
    hasKey supportKey (applyChanges pool cs).validated_supports (supportKey s) = true := by
  induction cs generalizing pool with
  | nil => cases hmem
  | cons c cs ih =>
      rcases List.mem_cons.mp hmem with he | hm
      · subst he
        exact hasKey_validated_supports_applyChanges_mono cs _ _
          (fun c2 h2 x => hc c2 (by simp [h2]) x)
          (hasKey_insertByKey_self supportKey _ _)
      · exact ih _ hm (fun c2 h2 x => hc c2 (by simp [h2]) x)

theorem validated_dealings_applyChanges_frame (cs : EcdsaChangeSet) (pool : EcdsaPool)
    (hc : ∀ c ∈ cs, ∃ s, c = EcdsaChange.addToValidated (EcdsaMessage.support s)) :
    (applyChanges pool cs).validated_dealings = pool.validated_dealings := by
  induction cs generalizing pool with
  | nil => rfl
  | cons c cs ih =>
      obtain ⟨s, rfl⟩ := hc c (by simp)
      exact ih _ (fun c2 h2 => hc c2 (by simp [h2]))

theorem validated_dealings_applyChange_subset (pool : EcdsaPool) (c : EcdsaChange)
    (d : Dealing)
    (hc : (∀ x, c ≠ EcdsaChange.addToValidated (EcdsaMessage.dealing x))
      ∧ (∀ x, c ≠ EcdsaChange.moveToValidated (EcdsaMessage.dealing x)))
    (h : d ∈ (applyChange pool c).validated_dealings) :
    d ∈ pool.validated_dealings := by
  cases c <;> rename_i m <;> cases m <;>
    first
      | exact h
      | exact (List.mem_filter.mp h).1
      | (rename_i x
         first
           | exact absurd rfl (hc.1 x)
           | exact absurd rfl (hc.2 x))

theorem validated_dealings_applyChanges_subset (cs : EcdsaChangeSet) (pool : EcdsaPool)
    (d : Dealing)
    (hc : ∀ c ∈ cs, (∀ x, c ≠ EcdsaChange.addToValidated (EcdsaMessage.dealing x))
      ∧ (∀ x, c ≠ EcdsaChange.moveToValidated (EcdsaMessage.dealing x)))
    (h : d ∈ (applyChanges pool cs).validated_dealings) :
    d ∈ pool.validated_dealings := by
  induction cs generalizing pool with
  | nil => exact h
  | cons c cs ih =>
      exact validated_dealings_applyChange_subset pool c d (hc c (by simp))
        (ih _ (fun c2 h2 => hc c2 (by simp [h2])) h)

theorem not_mem_validated_dealings_applyChanges (cs : EcdsaChangeSet)
    (pool : EcdsaPool) (d : Dealing)
    (hmem : EcdsaChange.removeValidated (EcdsaMessage.dealing d) ∈ cs)
    (hc : ∀ c ∈ cs, (∀ x, c ≠ EcdsaChange.addToValidated (EcdsaMessage.dealing x))
      ∧ (∀ x, c ≠ EcdsaChange.moveToValidated (EcdsaMessage.dealing x))) :
    d ∉ (applyChanges pool cs).validated_dealings := by
  induction cs generalizing pool with
  | nil => cases hmem
  | cons c cs ih =>
      rcases List.mem_cons.mp hmem with he | hm
      · subst he
        intro hfin
        have hd2 : d ∈ (applyChange pool
            (EcdsaChange.removeValidated (EcdsaMessage.dealing d))).validated_dealings :=
          validated_dealings_applyChanges_subset cs _ d
            (fun c2 h2 => hc c2 (by simp [h2])) hfin
        have := (List.mem_filter.mp hd2).2
        simp at this
      · exact ih _ hm (fun c2 h2 => hc c2 (by simp [h2]))

theorem validated_supports_applyChange_subset (pool : EcdsaPool) (c : EcdsaChange)
    (s : DealingSupport)
    (hc : (∀ x, c ≠ EcdsaChange.addToValidated (EcdsaMessage.support x))
      ∧ (∀ x, c ≠ EcdsaChange.moveToValidated (EcdsaMessage.support x)))
    (h : s ∈ (applyChange pool c).validated_supports) :
    s ∈ pool.validated_supports := by
  cases c <;> rename_i m <;> cases m <;>
    first
      | exact h
      | exact (List.mem_filter.mp h).1
      | (rename_i x
         first
           | exact absurd rfl (hc.1 x)
           | exact absurd rfl (hc.2 x))

theorem validated_supports_applyChanges_subset (cs : EcdsaChangeSet) (pool : EcdsaPool)
    (s : DealingSupport)
    (hc : ∀ c ∈ cs, (∀ x, c ≠ EcdsaChange.addToValidated (EcdsaMessage.support x))
      ∧ (∀ x, c ≠ EcdsaChange.moveToValidated (EcdsaMessage.support x)))
    (h : s ∈ (applyChanges pool cs).validated_supports) :
    s ∈ pool.validated_supports := by
  induction cs generalizing pool with
  | nil => exact h
  | cons c cs ih =>
      exact validated_supports_applyChange_subset pool c s (hc c (by simp))
        (ih _ (fun c2 h2 => hc c2 (by simp [h2])) h)

theorem not_mem_validated_supports_applyChanges (cs : EcdsaChangeSet)
    (pool : EcdsaPool) (s : DealingSupport)
    (hmem : EcdsaChange.removeValidated (EcdsaMessage.support s) ∈ cs)
    (hc : ∀ c ∈ cs, (∀ x, c ≠ EcdsaChange.addToValidated (EcdsaMessage.support x))
      ∧ (∀ x, c ≠ EcdsaChange.moveToValidated (EcdsaMessage.support x))) :
    s ∉ (applyChanges pool cs).validated_supports := by
  induction cs generalizing pool with
  | nil => cases hmem
  | cons c cs ih =>
      rcases List.mem_cons.mp hmem with he | hm
      · subst he
        intro hfin
        have hs2 : s ∈ (applyChange pool
            (EcdsaChange.removeValidated (EcdsaMessage.support s))).validated_supports :=
          validated_supports_applyChanges_subset cs _ s
            (fun c2 h2 => hc c2 (by simp [h2])) hfin
        have := (List.mem_filter.mp hs2).2
        simp at this
      · exact ih _ hm (fun c2 h2 => hc c2 (by simp [h2]))

/-! ## Verdict characterizations for the validation steps -/

theorem validate_dealing_change_none_inv (crypto : CryptoService)
    (tip : FinalizedTip) (pool : EcdsaPool) (d : Dealing)
    (h : validate_dealing_change crypto tip pool d = none) :
    ¬ d.config_id ∈ tipConfigIds tip
    ∨ hasValidatedDealing pool d.config_id d.dealer = true
    ∨ crypto.verify_dealing_public d = VerifyResult.operationalError := by
  unfold validate_dealing_change at h
  split at h
  case isTrue hg =>
    split at h
    case h_1 => exact absurd h (by simp)
    case h_2 => exact absurd h (by simp)
    case h_3 hv => exact Or.inr (Or.inr hv)
  case isFalse hg =>
    by_cases hl : d.config_id ∈ tipConfigIds tip
    · refine Or.inr (Or.inl ?_)
      by_contra hvv
      refine hg ?_
      rw [Bool.and_eq_true, Bool.not_eq_true']
      exact ⟨decide_eq_true hl, Bool.eq_false_iff.mpr hvv⟩
    · exact Or.inl hl

theorem validate_dealing_change_eq_none (crypto : CryptoService)
    (tip : FinalizedTip) (pool : EcdsaPool) (d : Dealing)
    (h : ¬ d.config_id ∈ tipConfigIds tip
      ∨ hasValidatedDealing pool d.config_id d.dealer = true
      ∨ crypto.verify_dealing_public d = VerifyResult.operationalError) :
    validate_dealing_change crypto tip pool d = none := by
  unfold validate_dealing_change
  rcases h with h | h | h
  · have hng : ¬ ((decide (d.config_id ∈ tipConfigIds tip)
        && !hasValidatedDealing pool d.config_id d.dealer) = true) := by
      rw [Bool.and_eq_true]
      rintro ⟨h1, _⟩
      exact h (by simpa using h1)
    rw [if_neg hng]
  · have hng : ¬ ((decide (d.config_id ∈ tipConfigIds tip)
        && !hasValidatedDealing pool d.config_id d.dealer) = true) := by
      rw [Bool.and_eq_true]
      rintro ⟨_, h2⟩
      rw [h] at h2
      simp at h2
    rw [if_neg hng]
  · split
    case isTrue => rw [h]
    case isFalse => rfl

theorem validate_share_change_none_inv (crypto : CryptoService)
    (tip : FinalizedTip) (pool : EcdsaPool) (s : SignatureShare)
    (h : validate_share_change crypto tip pool s = none) :
    ¬ s.config_id ∈ tipConfigIds tip
    ∨ hasValidatedShare pool s.config_id s.signer = true
    ∨ crypto.verify_share s = VerifyResult.operationalError := by
  unfold validate_share_change at h
  split at h
  case isTrue hg =>
    split at h
    case h_1 => exact absurd h (by simp)
    case h_2 => exact absurd h (by simp)
    case h_3 hv => exact Or.inr (Or.inr hv)
  case isFalse hg =>
    by_cases hl : s.config_id ∈ tipConfigIds tip
    · refine Or.inr (Or.inl ?_)
      by_contra hvv
      refine hg ?_
      rw [Bool.and_eq_true, Bool.not_eq_true']
      exact ⟨decide_eq_true hl, Bool.eq_false_iff.mpr hvv⟩
    · exact Or.inl hl

theorem validate_share_change_eq_none (crypto : CryptoService)
    (tip : FinalizedTip) (pool : EcdsaPool) (s : SignatureShare)
    (h : ¬ s.config_id ∈ tipConfigIds tip
      ∨ hasValidatedShare pool s.config_id s.signer = true
      ∨ crypto.verify_share s = VerifyResult.operationalError) :
    validate_share_change crypto tip pool s = none := by
  unfold validate_share_change
  rcases h with h | h | h
  · have hng : ¬ ((decide (s.config_id ∈ tipConfigIds tip)
        && !hasValidatedShare pool s.config_id s.signer) = true) := by
      rw [Bool.and_eq_true]
      rintro ⟨h1, _⟩
      exact h (by simpa using h1)
    rw [if_neg hng]
  · have hng : ¬ ((decide (s.config_id ∈ tipConfigIds tip)
        && !hasValidatedShare pool s.config_id s.signer) = true) := by
      rw [Bool.and_eq_true]
      rintro ⟨_, h2⟩
      rw [h] at h2
      simp at h2
    rw [if_neg hng]
  · split
    case isTrue => rw [h]
    case isFalse => rfl

/-! ## Shapes of the change sets of the individual operations -/

theorem validate_dealings_changes_shape (crypto : CryptoService) (tip : FinalizedTip)
    (pool : EcdsaPool) (c : EcdsaChange) (hc : c ∈ validate_dealings crypto tip pool) :
    ∃ y, c = EcdsaChange.moveToValidated (EcdsaMessage.dealing y)
      ∨ c = EcdsaChange.removeUnvalidated (EcdsaMessage.dealing y) := by
  rcases List.mem_filterMap.mp hc with ⟨x, _, hx⟩
  rcases validate_dealing_change_inv hx with ⟨_, _, hcase⟩
  rcases hcase with ⟨_, rfl⟩ | ⟨_, rfl⟩
  · exact ⟨x, Or.inl rfl⟩
  · exact ⟨x, Or.inr rfl⟩

theorem send_dealing_support_changes_shape (me : NodeId) (crypto : CryptoService)
    (pool : EcdsaPool) (c : EcdsaChange) (hc : c ∈ send_dealing_support me crypto pool) :
    ∃ s, c = EcdsaChange.addToValidated (EcdsaMessage.support s) := by
  rcases List.mem_filterMap.mp hc with ⟨x, _, hx⟩
  rcases support_change_inv hx with ⟨_, _, rfl⟩
  exact ⟨_, rfl⟩

theorem validate_signature_shares_changes_shape (crypto : CryptoService)
    (tip : FinalizedTip) (pool : EcdsaPool) (c : EcdsaChange)
    (hc : c ∈ validate_signature_shares crypto tip pool) :
    ∃ y, c = EcdsaChange.moveToValidated (EcdsaMessage.share y)
      ∨ c = EcdsaChange.removeUnvalidated (EcdsaMessage.share y) := by
  rcases List.mem_filterMap.mp hc with ⟨x, _, hx⟩
  rcases validate_share_change_inv hx with ⟨_, _, hcase⟩
  rcases hcase with ⟨_, rfl⟩ | ⟨_, rfl⟩
  · exact ⟨x, Or.inl rfl⟩
  · exact ⟨x, Or.inr rfl⟩

/-! ## Idempotence of the remaining PreSigner operations -/

theorem validate_dealings_idempotent (crypto : CryptoService) (tip : FinalizedTip)
    (pool : EcdsaPool) :
    validate_dealings crypto tip
      (applyChanges pool (validate_dealings crypto tip pool)) = [] := by
  have hnorem : ∀ c ∈ validate_dealings crypto tip pool,
      ∀ x, c ≠ EcdsaChange.removeValidated (EcdsaMessage.dealing x) := by
    intro c hc x
    rcases validate_dealings_changes_shape crypto tip pool c hc with ⟨y, rfl | rfl⟩ <;> simp
  have key : ∀ d ∈ (applyChanges pool
        (validate_dealings crypto tip pool)).unvalidated_dealings,
      validate_dealing_change crypto tip
        (applyChanges pool (validate_dealings crypto tip pool)) d = none := by
    intro d hd
    have hdown : d ∈ pool.unvalidated_dealings :=
      unval_dealings_applyChanges_subset _ pool d hd
    have hnone : validate_dealing_change crypto tip pool d = none := by
      cases hcase : validate_dealing_change crypto tip pool d with
      | none => rfl
      | some c0 =>
          exfalso
          have hc0 : c0 ∈ validate_dealings crypto tip pool :=
            List.mem_filterMap.mpr ⟨d, hdown, hcase⟩
          rcases validate_dealing_change_inv hcase with ⟨_, _, hcc⟩
          rcases hcc with ⟨_, rfl⟩ | ⟨_, rfl⟩
          · exact not_mem_unval_dealings_applyChanges _ pool d (Or.inl hc0) hd
          · exact not_mem_unval_dealings_applyChanges _ pool d (Or.inr hc0) hd
    rcases validate_dealing_change_none_inv crypto tip pool d hnone with hl | hv | he
    · exact validate_dealing_change_eq_none crypto tip _ d (Or.inl hl)
    · exact validate_dealing_change_eq_none crypto tip _ d (Or.inr (Or.inl
        (hasKey_validated_dealings_applyChanges_mono _ pool _ hnorem hv)))
    · exact validate_dealing_change_eq_none crypto tip _ d (Or.inr (Or.inr he))
  exact List.filterMap_eq_nil_iff.mpr key

theorem send_dealing_support_idempotent (me : NodeId) (crypto : CryptoService)
    (pool : EcdsaPool) :
    send_dealing_support me crypto
      (applyChanges pool (send_dealing_support me crypto pool)) = [] := by
  have hshape : ∀ c ∈ send_dealing_support me crypto pool,
      ∃ s, c = EcdsaChange.addToValidated (EcdsaMessage.support s) :=
    fun c hc => send_dealing_support_changes_shape me crypto pool c hc
  have hnorem : ∀ c ∈ send_dealing_support me crypto pool,
      ∀ x, c ≠ EcdsaChange.removeValidated (EcdsaMessage.support x) := by
    intro c hc x
    obtain ⟨s, rfl⟩ := hshape c hc
    simp
  have hframe : (applyChanges pool
        (send_dealing_support me crypto pool)).validated_dealings
      = pool.validated_dealings :=
    validated_dealings_applyChanges_frame _ pool hshape
  have key : ∀ d ∈ (applyChanges pool
        (send_dealing_support me crypto pool)).validated_dealings,
      support_change me crypto
        (applyChanges pool (send_dealing_support me crypto pool)) d = none := by
    intro d hd
    rw [hframe] at hd
    by_cases hsup : hasValidatedSupport pool d.config_id d.dealer me = true
    · have hsup2 : hasValidatedSupport
          (applyChanges pool (send_dealing_support me crypto pool))
          d.config_id d.dealer me = true :=
        hasKey_validated_supports_applyChanges_mono _ pool _ hnorem hsup
      have hng : ¬ ((!hasValidatedSupport
          (applyChanges pool (send_dealing_support me crypto pool))
          d.config_id d.dealer me) = true) := by
        rw [Bool.not_eq_true', hsup2]
        simp
      unfold support_change
      rw [if_neg hng]
    · by_cases hv : crypto.verify_dealing_private d = VerifyResult.valid
      · have hc0 : EcdsaChange.addToValidated
            (EcdsaMessage.support ⟨d.config_id, d.dealer, me⟩)
            ∈ send_dealing_support me crypto pool := by
          refine List.mem_filterMap.mpr ⟨d, hd, ?_⟩
          have hpos : (!hasValidatedSupport pool d.config_id d.dealer me) = true := by
            rw [Bool.not_eq_true']
            exact Bool.eq_false_iff.mpr hsup
          unfold support_change
          rw [if_pos hpos, hv]
        have hkey : hasValidatedSupport
            (applyChanges pool (send_dealing_support me crypto pool))
            d.config_id d.dealer me = true :=
          hasKey_validated_supports_after_add _ pool _ hc0 hnorem
        have hng : ¬ ((!hasValidatedSupport
            (applyChanges pool (send_dealing_support me crypto pool))
            d.config_id d.dealer me) = true) := by
          rw [Bool.not_eq_true', hkey]
          simp
        unfold support_change
        rw [if_neg hng]
      · unfold support_change
        split
        · split
          · rename_i hveq
            exact absurd hveq hv
          · rfl
        · rfl
  exact List.filterMap_eq_nil_iff.mpr key

theorem purge_artifacts_idempotent (tip : FinalizedTip) (pool : EcdsaPool) :
    purge_artifacts tip (applyChanges pool (purge_artifacts tip pool)) = [] := by
  have hnoadd_d : ∀ c ∈ purge_artifacts tip pool,
      (∀ x, c ≠ EcdsaChange.addToValidated (EcdsaMessage.dealing x))
      ∧ (∀ x, c ≠ EcdsaChange.moveToValidated (EcdsaMessage.dealing x)) := by
    intro c hc
    rcases mem_purge_artifacts_inv hc with ⟨y, _, _, rfl⟩ | ⟨y, _, _, rfl⟩ | ⟨y, _, _, rfl⟩ <;>
      exact ⟨fun x => by simp, fun x => by simp⟩
  have hnoadd_s : ∀ c ∈ purge_artifacts tip pool,
      (∀ x, c ≠ EcdsaChange.addToValidated (EcdsaMessage.support x))
      ∧ (∀ x, c ≠ EcdsaChange.moveToValidated (EcdsaMessage.support x)) := by
    intro c hc
    rcases mem_purge_artifacts_inv hc with ⟨y, _, _, rfl⟩ | ⟨y, _, _, rfl⟩ | ⟨y, _, _, rfl⟩ <;>
      exact ⟨fun x => by simp, fun x => by simp⟩
  have h1 : ∀ d ∈ (applyChanges pool (purge_artifacts tip pool)).validated_dealings,
      ¬ is_stale tip d.config_id = true := by
    intro d hd hstale
    have hdp : d ∈ pool.validated_dealings :=
      validated_dealings_applyChanges_subset _ pool d hnoadd_d hd
    have hrm : EcdsaChange.removeValidated (EcdsaMessage.dealing d)
        ∈ purge_artifacts tip pool := by
      unfold purge_artifacts
      exact List.mem_append_left _ (List.mem_append_left _
        (List.mem_map.mpr ⟨d, List.mem_filter.mpr ⟨hdp, hstale⟩, rfl⟩))
    exact not_mem_validated_dealings_applyChanges _ pool d hrm hnoadd_d hd
  have h2 : ∀ d ∈ (applyChanges pool (purge_artifacts tip pool)).unvalidated_dealings,
      ¬ is_stale tip d.config_id = true := by
    intro d hd hstale
    have hdp : d ∈ pool.unvalidated_dealings :=
      unval_dealings_applyChanges_subset _ pool d hd
    have hrm : EcdsaChange.removeUnvalidated (EcdsaMessage.dealing d)
        ∈ purge_artifacts tip pool := by
      unfold purge_artifacts
      exact List.mem_append_left _ (List.mem_append_right _
        (List.mem_map.mpr ⟨d, List.mem_filter.mpr ⟨hdp, hstale⟩, rfl⟩))
    exact not_mem_unval_dealings_applyChanges _ pool d (Or.inr hrm) hd
  have h3 : ∀ s ∈ (applyChanges pool (purge_artifacts tip pool)).validated_supports,
      ¬ is_stale tip s.config_id = true := by
    intro s hs hstale
    have hsp : s ∈ pool.validated_supports :=
      validated_supports_applyChanges_subset _ pool s hnoadd_s hs
    have hrm : EcdsaChange.removeValidated (EcdsaMessage.support s)
        ∈ purge_artifacts tip pool := by
      unfold purge_artifacts
      exact List.mem_append_right _
        (List.mem_map.mpr ⟨s, List.mem_filter.mpr ⟨hsp, hstale⟩, rfl⟩)
    exact not_mem_validated_supports_applyChanges _ pool s hrm hnoadd_s hs
  have e1 : ((applyChanges pool (purge_artifacts tip pool)).validated_dealings.filter
      (fun d => is_stale tip d.config_id)) = [] := List.filter_eq_nil_iff.mpr h1
  have e2 : ((applyChanges pool (purge_artifacts tip pool)).unvalidated_dealings.filter
      (fun d => is_stale tip d.config_id)) = [] := List.filter_eq_nil_iff.mpr h2
  have e3 : ((applyChanges pool (purge_artifacts tip pool)).validated_supports.filter
      (fun s => is_stale tip s.config_id)) = [] := List.filter_eq_nil_iff.mpr h3
  show ((applyChanges pool (purge_artifacts tip pool)).validated_dealings.filter
      (fun d => is_stale tip d.config_id)).map
        (fun d => EcdsaChange.removeValidated (EcdsaMessage.dealing d))
    ++ ((applyChanges pool (purge_artifacts tip pool)).unvalidated_dealings.filter
      (fun d => is_stale tip d.config_id)).map
        (fun d => EcdsaChange.removeUnvalidated (EcdsaMessage.dealing d))
    ++ ((applyChanges pool (purge_artifacts tip pool)).validated_supports.filter
      (fun s => is_stale tip s.config_id)).map
        (fun s => EcdsaChange.removeValidated (EcdsaMessage.support s)) = []
  rw [e1, e2, e3]
  rfl

theorem validate_signature_shares_idempotent (crypto : CryptoService)
    (tip : FinalizedTip) (pool : EcdsaPool) :
    validate_signature_shares crypto tip
      (applyChanges pool (validate_signature_shares crypto tip pool)) = [] := by
  have hnorem : ∀ c ∈ validate_signature_shares crypto tip pool,
      ∀ x, c ≠ EcdsaChange.removeValidated (EcdsaMessage.share x) := by
    intro c hc x
    rcases validate_signature_shares_changes_shape crypto tip pool c hc with
      ⟨y, rfl | rfl⟩ <;> simp
  have key : ∀ s ∈ (applyChanges pool
        (validate_signature_shares crypto tip pool)).unvalidated_shares,
      validate_share_change crypto tip
        (applyChanges pool (validate_signature_shares crypto tip pool)) s = none := by
    intro s hs
    have hdown : s ∈ pool.unvalidated_shares :=
      unval_shares_applyChanges_subset _ pool s hs
    have hnone : validate_share_change crypto tip pool s = none := by
      cases hcase : validate_share_change crypto tip pool s with
      | none => rfl
      | some c0 =>
          exfalso
          have hc0 : c0 ∈ validate_signature_shares crypto tip pool :=
            List.mem_filterMap.mpr ⟨s, hdown, hcase⟩
          rcases validate_share_change_inv hcase with ⟨_, _, hcc⟩
          rcases hcc with ⟨_, rfl⟩ | ⟨_, rfl⟩
          · exact not_mem_unval_shares_applyChanges _ pool s (Or.inl hc0) hs
          · exact not_mem_unval_shares_applyChanges _ pool s (Or.inr hc0) hs
    rcases validate_share_change_none_inv crypto tip pool s hnone with hl | hv | he
    · exact validate_share_change_eq_none crypto tip _ s (Or.inl hl)
    · exact validate_share_change_eq_none crypto tip _ s (Or.inr (Or.inl
        (hasKey_validated_shares_applyChanges_mono _ pool _ hnorem hv)))
    · exact validate_share_change_eq_none crypto tip _ s (Or.inr (Or.inr he))
  exact List.filterMap_eq_nil_iff.mpr key

/-- C4 (amended): a single application of a tick's change set need not reach
a fixed point of `on_state_change`, because one operation's output can
enable another on the next tick (the counterexample: a freshly added dealing
triggers a support message); every individual PreSigner operation, however,
is an idempotent no-op once its own change set has been applied: re-running
any of the seven operations — dealing issuing, dealing validation, support
issuing, garbage collection, share issuing, share validation, aggregation —
on the updated pool returns an empty change set. -/
theorem c4_operations_idempotent_after_apply (me : NodeId) (crypto : CryptoService)
    (tip : FinalizedTip) (pool : EcdsaPool) :
    send_dealings me tip (applyChanges pool (send_dealings me tip pool)) = []
    ∧ validate_dealings crypto tip
        (applyChanges pool (validate_dealings crypto tip pool)) = []
    ∧ send_dealing_support me crypto
        (applyChanges pool (send_dealing_support me crypto pool)) = []
    ∧ purge_artifacts tip (applyChanges pool (purge_artifacts tip pool)) = []
    ∧ send_signature_shares me tip
        (applyChanges pool (send_signature_shares me tip pool)) = []
    ∧ validate_signature_shares crypto tip
        (applyChanges pool (validate_signature_shares crypto tip pool)) = []
    ∧ aggregate_signatures tip (applyChanges pool (aggregate_signatures tip pool)) = [] :=
  ⟨send_dealings_idempotent me tip pool,
   validate_dealings_idempotent crypto tip pool,
   send_dealing_support_idempotent me crypto pool,
   purge_artifacts_idempotent tip pool,
   send_signature_shares_idempotent me tip pool,
   validate_signature_shares_idempotent crypto tip pool,
   aggregate_signatures_idempotent tip pool⟩

/-! ## C7: operational crypto errors leave the artifact pending -/

theorem mem_unvalidated_shares_applyChange (pool : EcdsaPool) (c : EcdsaChange)
    (s : SignatureShare) (hs : s ∈ pool.unvalidated_shares)
    (hc1 : c ≠ EcdsaChange.moveToValidated (EcdsaMessage.share s))
    (hc2 : c ≠ EcdsaChange.removeUnvalidated (EcdsaMessage.share s)) :
    s ∈ (applyChange pool c).unvalidated_shares := by
  cases c <;> rename_i m <;> cases m <;>
    first
      | exact hs
      | (rename_i x
         refine List.mem_filter.mpr ⟨hs, ?_⟩
         simp only [Bool.not_eq_true', decide_eq_false_iff_not]
         intro he
         subst he
         first
           | exact hc1 rfl
           | exact hc2 rfl)

theorem mem_unvalidated_shares_applyChanges (cs : EcdsaChangeSet) (pool : EcdsaPool)
    (s : SignatureShare) (hs : s ∈ pool.unvalidated_shares)
    (hc : ∀ c ∈ cs, c ≠ EcdsaChange.moveToValidated (EcdsaMessage.share s)
      ∧ c ≠ EcdsaChange.removeUnvalidated (EcdsaMessage.share s)) :
    s ∈ (applyChanges pool cs).unvalidated_shares := by
  induction cs generalizing pool with
  | nil => exact hs
  | cons c cs ih =>
      exact ih _
        (mem_unvalidated_shares_applyChange pool c s hs (hc c (by simp)).1 (hc c (by simp)).2)
        (fun c2 h2 => hc c2 (by simp [h2]))

theorem presigner_no_unval_share_removal (me : NodeId) (crypto : CryptoService)
    (tip : FinalizedTip) (pool : EcdsaPool) (s : SignatureShare)
    (h2 : s.config_id ∈ tipConfigIds tip)
    (h4 : crypto.verify_share s = VerifyResult.operationalError) :
    ∀ c ∈ pre_signer_on_state_change me crypto tip pool,
      c ≠ EcdsaChange.moveToValidated (EcdsaMessage.share s)
      ∧ c ≠ EcdsaChange.removeUnvalidated (EcdsaMessage.share s) := by
  intro c hc
  simp only [pre_signer_on_state_change, List.mem_append] at hc
  rcases hc with ((((((hc | hc) | hc) | hc) | hc) | hc) | hc)
  · rcases mem_send_dealings_inv hc with ⟨cfg, _, _, _, rfl⟩
    exact ⟨by simp, by simp⟩
  · rcases List.mem_filterMap.mp hc with ⟨x, _, hx⟩
    rcases validate_dealing_change_inv hx with ⟨_, _, hcase⟩
    rcases hcase with ⟨_, rfl⟩ | ⟨_, rfl⟩ <;> exact ⟨by simp, by simp⟩
  · rcases List.mem_filterMap.mp hc with ⟨x, _, hx⟩
    rcases support_change_inv hx with ⟨_, _, rfl⟩
    exact ⟨by simp, by simp⟩
  · rcases mem_purge_artifacts_inv hc with ⟨x, _, _, rfl⟩ | ⟨x, _, _, rfl⟩ | ⟨x, _, _, rfl⟩ <;>
      exact ⟨by simp, by simp⟩
  · rcases mem_send_signature_shares_inv hc with ⟨req, _, _, _, rfl⟩
    exact ⟨by simp, by simp⟩
  · rcases List.mem_filterMap.mp hc with ⟨x, _, hx⟩
    rcases validate_share_change_inv hx with ⟨_, _, hcase⟩
    rcases hcase with ⟨hv, rfl⟩ | ⟨hv, rfl⟩
    · refine ⟨?_, by simp⟩
      intro he
      obtain rfl : x = s := by
        injection he with h3
        injection h3
      rw [h4] at hv
      exact absurd hv (by simp)
    · refine ⟨by simp, ?_⟩
      intro he
      obtain rfl : x = s := by
        injection he with h3
        injection h3
      rw [h4] at hv
      exact absurd hv (by simp)
  · rcases mem_aggregate_signatures_inv hc with ⟨req, _, _, _, rfl⟩
    exact ⟨by simp, by simp⟩

/-- A pending (unvalidated) dealing from a peer, used by the C7 witness. -/
def pendingDealing : Dealing := { config_id := { id := 0, height := 0 }, dealer := 1 }

/-- A pending (unvalidated) signature share from a peer, used by the C7
witness. -/
def pendingShare : SignatureShare := { config_id := { id := 0, height := 0 }, signer := 1 }

/-- A pool holding one pending dealing and one pending share. -/
def poolPending : EcdsaPool :=
  { emptyPool with
      unvalidated_dealings := [pendingDealing]
      unvalidated_shares := [pendingShare] }

/-- C7: if, while validating a pending artifact — an unvalidated dealing or
an unvalidated signature share — the crypto service fails with an
operational error (distinct from the "invalid artifact" outcome), the
artifact is neither moved to validated nor discarded: the tick's change set
contains no mutation for it, it is still in the unvalidated partition after
the change set is applied, and it is still there after the next tick as
well (the deterministic retry hits the same operational error). -/
theorem c7_operational_error_artifact_retried (me : NodeId) (crypto : CryptoService)
    (tip : FinalizedTip) (pool : EcdsaPool) (d : Dealing) (s : SignatureShare) :
    (d ∈ pool.unvalidated_dealings → d.config_id ∈ tipConfigIds tip →
      crypto.verify_dealing_public d = VerifyResult.operationalError →
      (EcdsaChange.moveToValidated (EcdsaMessage.dealing d)
          ∉ pre_signer_on_state_change me crypto tip pool
        ∧ EcdsaChange.removeUnvalidated (EcdsaMessage.dealing d)
            ∉ pre_signer_on_state_change me crypto tip pool
        ∧ d ∈ (runTick me crypto pool tip).unvalidated_dealings
        ∧ d ∈ (runTick me crypto (runTick me crypto pool tip) tip).unvalidated_dealings))
    ∧ (s ∈ pool.unvalidated_shares → s.config_id ∈ tipConfigIds tip →
      crypto.verify_share s = VerifyResult.operationalError →
      (EcdsaChange.moveToValidated (EcdsaMessage.share s)
          ∉ pre_signer_on_state_change me crypto tip pool
        ∧ EcdsaChange.removeUnvalidated (EcdsaMessage.share s)
            ∉ pre_signer_on_state_change me crypto tip pool
        ∧ s ∈ (runTick me crypto pool tip).unvalidated_shares
        ∧ s ∈ (runTick me crypto (runTick me crypto pool tip) tip).unvalidated_shares)) := by
  constructor
  · intro h1 h2 h4
    have hsurv1 : d ∈ (runTick me crypto pool tip).unvalidated_dealings :=
      mem_unvalidated_dealings_applyChanges _ pool d h1
        (presigner_no_unval_dealing_removal me crypto tip pool d h2 h4)
    refine ⟨?_, ?_, hsurv1, ?_⟩
    · intro hmem
      exact (presigner_no_unval_dealing_removal me crypto tip pool d h2 h4 _ hmem).1 rfl
    · intro hmem
      exact (presigner_no_unval_dealing_removal me crypto tip pool d h2 h4 _ hmem).2 rfl
    · exact mem_unvalidated_dealings_applyChanges _ _ d hsurv1
        (presigner_no_unval_dealing_removal me crypto tip _ d h2 h4)
  · intro h1 h2 h4
    have hsurv1 : s ∈ (runTick me crypto pool tip).unvalidated_shares :=
      mem_unvalidated_shares_applyChanges _ pool s h1
        (presigner_no_unval_share_removal me crypto tip pool s h2 h4)
    refine ⟨?_, ?_, hsurv1, ?_⟩
    · intro hmem
      exact (presigner_no_unval_share_removal me crypto tip pool s h2 h4 _ hmem).1 rfl
    · intro hmem
      exact (presigner_no_unval_share_removal me crypto tip pool s h2 h4 _ hmem).2 rfl
    · exact mem_unvalidated_shares_applyChanges _ _ s hsurv1
        (presigner_no_unval_share_removal me crypto tip _ s h2 h4)

theorem c7_operational_error_witness :
    (EcdsaChange.moveToValidated (EcdsaMessage.dealing pendingDealing)
        ∉ pre_signer_on_state_change 0 cryptoAllBroken tip0 poolPending
      ∧ EcdsaChange.removeUnvalidated (EcdsaMessage.dealing pendingDealing)
          ∉ pre_signer_on_state_change 0 cryptoAllBroken tip0 poolPending
      ∧ pendingDealing ∈ (runTick 0 cryptoAllBroken poolPending tip0).unvalidated_dealings
      ∧ pendingDealing ∈ (runTick 0 cryptoAllBroken
          (runTick 0 cryptoAllBroken poolPending tip0) tip0).unvalidated_dealings)
    ∧ (EcdsaChange.moveToValidated (EcdsaMessage.share pendingShare)
        ∉ pre_signer_on_state_change 0 cryptoAllBroken tip0 poolPending
      ∧ EcdsaChange.removeUnvalidated (EcdsaMessage.share pendingShare)
          ∉ pre_signer_on_state_change 0 cryptoAllBroken tip0 poolPending
      ∧ pendingShare ∈ (runTick 0 cryptoAllBroken poolPending tip0).unvalidated_shares
      ∧ pendingShare ∈ (runTick 0 cryptoAllBroken
          (runTick 0 cryptoAllBroken poolPending tip0) tip0).unvalidated_shares) :=
  ⟨(c7_operational_error_artifact_retried 0 cryptoAllBroken tip0 poolPending
      pendingDealing pendingShare).1 (by decide) (by decide) (by decide),
   (c7_operational_error_artifact_retried 0 cryptoAllBroken tip0 poolPending
      pendingDealing pendingShare).2 (by decide) (by decide) (by decide)⟩
